import Mathlib

/-!
Verification of the gigot Git object-store engine.

Bytes are modelled as `Nat` (values < 256) and byte buffers as `List Nat`.
Large random-access buffers are additionally modelled as `ByteSrc`
(a length together with an index function), mirroring Go byte slices
accessed by position.  Every Go loop is embedded as a structurally
recursive function on an explicit fuel argument so that everything
evaluates inside the kernel.
-/

set_option maxRecDepth 10000

namespace GigotBytes

/-- A random-access byte source: length plus index function (out-of-range
reads yield 0, mirroring a zero-filled Go buffer; callers bound-check). -/
structure ByteSrc where
  size : Nat
  get : Nat → Nat

/-- Materialize `n` bytes of a source starting at `off` (Go slice `b[off:off+n]`). -/
def ByteSrc.slice (b : ByteSrc) (off n : Nat) : List Nat :=
  (List.range n).map (fun i => b.get (off + i))

/-- A list viewed as a byte source. -/
def ofList (l : List Nat) : ByteSrc :=
  { size := l.length, get := fun i => l.getD i 0 }

/-- Big-endian 32-bit read at offset `i` (Go `binary.BigEndian.Uint32`). -/
def be32 (l : List Nat) (i : Nat) : Nat :=
  ((l.getD i 0) <<< 24) ||| ((l.getD (i+1) 0) <<< 16) |||
    ((l.getD (i+2) 0) <<< 8) ||| (l.getD (i+3) 0)

/-- Big-endian 64-bit read at offset `i` (Go `binary.BigEndian.Uint64`). -/
def be64 (l : List Nat) (i : Nat) : Nat :=
  (be32 l i) <<< 32 ||| be32 l (i+4)

/-- Lexicographic byte comparison (Go `bytes.Compare`): -1, 0 or 1. -/
def bytesCompare : List Nat → List Nat → Int
  | [], [] => 0
  | [], _ :: _ => -1
  | _ :: _, [] => 1
  | a :: as, b :: bs =>
    if a < b then -1 else if b < a then 1 else bytesCompare as bs

/-- Go `bytes.IndexByte`: index of the first occurrence of `c`, or -1. -/
def indexByte (l : List Nat) (c : Nat) : Int :=
  match l with
  | [] => -1
  | a :: as =>
    if a = c then 0
    else
      let i := indexByte as c
      if i = -1 then -1 else i + 1

/-- ASCII digits of `n` in the given base, most significant first
(fuel-recursive so that it evaluates and is provable by induction). -/
def digitsF (base : Nat) : Nat → Nat → List Nat
  | 0, _ => []
  | f + 1, n => if n < base then [48 + n] else digitsF base f (n / base) ++ [48 + n % base]

/-- ASCII decimal rendering of a natural number (Go `%d` on a non-negative value). -/
def decimal (n : Nat) : List Nat :=
  digitsF 10 (n + 1) n

/-- Parse an ASCII decimal string of at most `bits`-bit range
(Go `strconv.ParseUint(s, 10, bits)`): all bytes must be digits,
the value must fit, and the string must be non-empty. -/
def parseUintDec (l : List Nat) (bits : Nat) : Option Nat :=
  if l = [] then none
  else if l.all (fun c => 48 ≤ c ∧ c ≤ 57) then
    let v := l.foldl (fun acc c => acc * 10 + (c - 48)) 0
    if v < 2 ^ bits then some v else none
  else none

/-- Parse an ASCII octal string (Go `strconv.ParseUint(s, 8, bits)`). -/
def parseUintOct (l : List Nat) (bits : Nat) : Option Nat :=
  if l = [] then none
  else if l.all (fun c => 48 ≤ c ∧ c ≤ 55) then
    let v := l.foldl (fun acc c => acc * 8 + (c - 48)) 0
    if v < 2 ^ bits then some v else none
  else none

/-- Octal digits of `n`, most significant first, no leading zeros (`%o`). -/
def octalDigits (n : Nat) : List Nat :=
  digitsF 8 (n + 1) n

/-- `%06o`: octal, zero-padded on the left to width 6. -/
def octal6 (n : Nat) : List Nat :=
  let d := octalDigits n
  List.replicate (6 - d.length) 48 ++ d

/-- One lowercase hex digit. -/
def hexDigit (n : Nat) : Nat :=
  if n < 10 then 48 + n else 87 + n

/-- Lowercase hex rendering of a byte list (Go `hex.EncodeToString`). -/
def hexEncode (l : List Nat) : List Nat :=
  l.flatMap (fun b => [hexDigit (b >>> 4), hexDigit (b &&& 15)])

/-- Value of one ASCII hex digit, or `none`. -/
def hexVal (c : Nat) : Option Nat :=
  if 48 ≤ c ∧ c ≤ 57 then some (c - 48)
  else if 97 ≤ c ∧ c ≤ 102 then some (c - 87)
  else if 65 ≤ c ∧ c ≤ 70 then some (c - 55)
  else none

/-- Go `hex.Decode` into a 20-byte destination: returns the decoded bytes
when the input is exactly 40 valid hex digits (the way gigot uses it:
it checks both `err` and `n == 20`). -/
def hexDecode20 (l : List Nat) : Option (List Nat) :=
  let rec go : List Nat → Option (List Nat)
    | [] => some []
    | [_] => none
    | a :: b :: rest => do
      let hi ← hexVal a
      let lo ← hexVal b
      let r ← go rest
      pure ((hi <<< 4 ||| lo) :: r)
  if l.length = 40 then go l else none

end GigotBytes

namespace GigotSha1

/-!
Modelled from the spec: the hash function of §3 ("Produced by SHA-1 of the
canonical byte serialization") — the SHA-1 implementation itself lives in
Go's standard library (`crypto/sha1`), not in this repository, so it is
modelled here from the SHA-1 specification (FIPS 180).
-/

/-- 32-bit left rotation. -/
def rotl32 (x n : Nat) : Nat :=
  (((x <<< n) ||| (x >>> (32 - n)))) &&& 0xFFFFFFFF

/-- SHA-1 padding: append 0x80, zero bytes and the 64-bit big-endian bit length. -/
def pad (msg : List Nat) : List Nat :=
  let len := msg.length
  let zeros := (64 - ((len + 9) % 64)) % 64
  let bits := 8 * len
  msg ++ [0x80] ++ List.replicate zeros 0 ++
    [ (bits >>> 56) &&& 255, (bits >>> 48) &&& 255, (bits >>> 40) &&& 255,
      (bits >>> 32) &&& 255, (bits >>> 24) &&& 255, (bits >>> 16) &&& 255,
      (bits >>> 8) &&& 255, bits &&& 255 ]

/-- The 16 big-endian 32-bit words of one 64-byte block. -/
def blockWords (blk : List Nat) : List Nat :=
  (List.range 16).map (fun i => GigotBytes.be32 blk (4 * i))

/-- Extend 16 words to 80 (newest-first accumulator). -/
def extendWords : Nat → List Nat → List Nat
  | 0, acc => acc.reverse
  | n + 1, acc =>
    let w := rotl32 (acc.getD 2 0 ^^^ acc.getD 7 0 ^^^ acc.getD 13 0 ^^^ acc.getD 15 0) 1
    extendWords n (w :: acc)

/-- One compression round. -/
def round (t : Nat) (w : Nat) (st : Nat × Nat × Nat × Nat × Nat) :
    Nat × Nat × Nat × Nat × Nat :=
  let (a, b, c, d, e) := st
  let f :=
    if t < 20 then (b &&& c) ||| ((b ^^^ 0xFFFFFFFF) &&& d)
    else if t < 40 then b ^^^ c ^^^ d
    else if t < 60 then (b &&& c) ||| (b &&& d) ||| (c &&& d)
    else b ^^^ c ^^^ d
  let k :=
    if t < 20 then 0x5A827999
    else if t < 40 then 0x6ED9EBA1
    else if t < 60 then 0x8F1BBCDC
    else 0xCA62C1D6
  let tmp := (rotl32 a 5 + f + e + k + w) &&& 0xFFFFFFFF
  (tmp, a, rotl32 b 30, c, d)

/-- Compress one 64-byte block into the running state. -/
def compress (h : Nat × Nat × Nat × Nat × Nat) (blk : List Nat) :
    Nat × Nat × Nat × Nat × Nat :=
  let ws := extendWords 64 (blockWords blk).reverse
  let (a, b, c, d, e) :=
    (ws.enum.foldl (fun st p => round p.1 p.2 st) h)
  let (h0, h1, h2, h3, h4) := h
  ((h0 + a) &&& 0xFFFFFFFF, (h1 + b) &&& 0xFFFFFFFF, (h2 + c) &&& 0xFFFFFFFF,
    (h3 + d) &&& 0xFFFFFFFF, (h4 + e) &&& 0xFFFFFFFF)

/-- Split into 64-byte blocks (fuel = number of blocks). -/
def blocks : Nat → List Nat → List (List Nat)
  | 0, _ => []
  | n + 1, l => l.take 64 :: blocks n (l.drop 64)

/-- Big-endian bytes of one 32-bit word. -/
def wordBytes (w : Nat) : List Nat :=
  [(w >>> 24) &&& 255, (w >>> 16) &&& 255, (w >>> 8) &&& 255, w &&& 255]

/-- SHA-1 of a byte list: the 20-byte digest. -/
def sha1 (msg : List Nat) : List Nat :=
  let p := pad msg
  let bs := blocks (p.length / 64) p
  let (h0, h1, h2, h3, h4) :=
    bs.foldl compress (0x67452301, 0xEFCDAB89, 0x98BADCFE, 0x10325476, 0xC3D2E1F0)
  wordBytes h0 ++ wordBytes h1 ++ wordBytes h2 ++ wordBytes h3 ++ wordBytes h4

end GigotSha1

example :
    GigotSha1.sha1 ([97, 98, 99]) =
      [0xa9, 0x99, 0x3e, 0x36, 0x47, 0x06, 0x81, 0x6a, 0xba, 0x3e,
       0x25, 0x71, 0x78, 0x50, 0xc2, 0x6c, 0x9c, 0xd0, 0xd8, 0x9d] := by
  decide

namespace GigotObj

open GigotBytes

/-- Object types of `package objects` (`BLOB = 0, TREE = 1, COMMIT = 2`). -/
inductive ObjType | blob | tree | commit
deriving DecidableEq, Repr

/-- Go `os.FileMode` bit constants used by `gitMode`/`osMode`. -/
def fmDir : Nat := 1 <<< 31
def fmSymlink : Nat := 1 <<< 27
def fmNamedPipe : Nat := 1 <<< 25
def fmSocket : Nat := 1 <<< 24
def fmDevice : Nat := 1 <<< 26
def fmCharDevice : Nat := 1 <<< 21
def fmIrregular : Nat := 1 <<< 19

/-- Go `os.ModeType`: the union of all file-type bits. -/
def fmType : Nat :=
  fmDir ||| fmSymlink ||| fmNamedPipe ||| fmSocket ||| fmDevice |||
    fmCharDevice ||| fmIrregular

/-- Git mode constants from object.go: `ModeRegular`, `ModeDir`, `ModeSymlink`. -/
def ModeRegular : Nat := 8 <<< 12
def ModeDir : Nat := 4 <<< 12
def ModeSymlink : Nat := 2 <<< 12

/-- `gitMode` (object.go): file mode bits as expected by Git, from an `os.FileMode`. -/
def gitMode (mode : Nat) : Nat :=
  let m := mode &&& 0o777
  let m := if mode &&& fmDir ≠ 0 then m ||| ModeDir else m
  let m := if mode &&& fmSymlink ≠ 0 then m ||| ModeSymlink else m
  if mode &&& fmType = 0 then m ||| ModeRegular else m

/-- `osMode` (object.go): an `os.FileMode` from a git mode. -/
def osMode (mode : Nat) : Nat :=
  let m := mode &&& 0o777
  if mode &&& ModeRegular ≠ 0 then m
  else
    let m := if mode &&& ModeDir ≠ 0 then m ||| fmDir else m
    if mode &&& ModeSymlink ≠ 0 then m ||| fmSymlink else m

/-- `TreeElem` (object.go): name, `os.FileMode`, child hash. -/
structure TreeElem where
  name : List Nat
  mode : Nat
  hash : List Nat
deriving DecidableEq, Repr

/-- Errors surfaced by the tree/loose parsers. -/
inductive TErr
  /-- `errBadTreeData` -/
  | badTree
  /-- a `strconv.ParseUint` error returned from the mode field -/
  | modeErr
deriving DecidableEq, Repr

end GigotObj

namespace ObjV1

/-!
Embedding of `src/objects/object.go` (the standalone version of the file):
its `parseTree` demands exactly six mode digits, and its `Tree.WriteTo`
prints `%06o` with a precomputed length.
-/

open GigotBytes GigotObj

/-- `parseTree` (object.go): the loop body, structurally recursive on fuel.
One entry is consumed per iteration; the source conditions
`sp != 6, nul < sp, nul+20 >= len(s)` are kept verbatim. -/
def parseTreeF : Nat → List Nat → List TreeElem → Except TErr (List TreeElem)
  | 0, s, acc => if s = [] then .ok acc.reverse else .error .badTree
  | fuel + 1, s, acc =>
    if s = [] then .ok acc.reverse
    else
      let sp := indexByte s 32
      let nul := indexByte s 0
      if sp ≠ 6 ∨ nul < sp ∨ nul + 20 ≥ (s.length : Int) then .error .badTree
      else
        match parseUintOct (s.take 6) 16 with
        | none => .error .modeErr
        | some mode =>
          let nulN := nul.toNat
          let e : TreeElem :=
            { mode := osMode mode
              name := (s.take nulN).drop 7
              hash := (s.drop (nulN + 1)).take 20 }
          parseTreeF fuel (s.drop (nulN + 21)) (e :: acc)

/-- `parseTree` (object.go). -/
def parseTree (s : List Nat) : Except TErr (List TreeElem) :=
  parseTreeF (s.length + 1) s []

/-- The entry records written by `Tree.WriteTo` (object.go): `%06o %s\x00%s`. -/
def treeBody (entries : List TreeElem) : List Nat :=
  entries.flatMap (fun e => octal6 (gitMode e.mode) ++ [32] ++ e.name ++ [0] ++ e.hash)

/-- The length field computed by `Tree.WriteTo` (object.go):
`(6 + 1 + 1 + 20) + len(e.Name)` summed over entries. -/
def treeLen (entries : List TreeElem) : Nat :=
  entries.foldl (fun acc e => acc + (6 + 1 + 1 + 20) + e.name.length) 0

/-- `Tree.WriteTo` (object.go): `"tree %d\x00"` followed by the entry records. -/
def treeSer (entries : List TreeElem) : List Nat :=
  [116, 114, 101, 101, 32] ++ decimal (treeLen entries) ++ [0] ++ treeBody entries

end ObjV1

namespace ObjV2

/-!
Embedding of the later version of object.go carried inside
`src/objects/pack_test.go`: `parseTree` without the `sp != 6` condition,
`Tree.WriteTo` printing `%o` into a buffer, and commit support
(`parseCommit`, `parseAuthor`, `Commit.WriteTo`, `readObject`, `rehash`).
-/

open GigotBytes GigotObj

/-- `parseTree` (pack_test.go version): same loop without the `sp != 6` check.
A negative `sp` would make Go panic slicing `s[:sp]`; here it yields the
mode-parse error (that path is exercised by no claim). -/
def parseTreeF : Nat → List Nat → List TreeElem → Except TErr (List TreeElem)
  | 0, s, acc => if s = [] then .ok acc.reverse else .error .badTree
  | fuel + 1, s, acc =>
    if s = [] then .ok acc.reverse
    else
      let sp := indexByte s 32
      let nul := indexByte s 0
      if nul < sp ∨ nul + 20 ≥ (s.length : Int) then .error .badTree
      else
        match parseUintOct (s.take sp.toNat) 16 with
        | none => .error .modeErr
        | some mode =>
          let nulN := nul.toNat
          let e : TreeElem :=
            { mode := osMode mode
              name := (s.take nulN).drop (sp.toNat + 1)
              hash := (s.drop (nulN + 1)).take 20 }
          parseTreeF fuel (s.drop (nulN + 21)) (e :: acc)

/-- `parseTree` (pack_test.go version). -/
def parseTree (s : List Nat) : Except TErr (List TreeElem) :=
  parseTreeF (s.length + 1) s []

/-- Entry records written by this version's `Tree.WriteTo`: `%o %s\x00%s`
(unpadded octal). -/
def treeBody (entries : List TreeElem) : List Nat :=
  entries.flatMap
    (fun e => octalDigits (gitMode e.mode) ++ [32] ++ e.name ++ [0] ++ e.hash)

/-- This version's `Tree.WriteTo`: `"tree %d\x00"` with the buffer length. -/
def treeSer (entries : List TreeElem) : List Nat :=
  [116, 114, 101, 101, 32] ++ decimal (treeBody entries).length ++ [0] ++ treeBody entries

end ObjV2

namespace ObjV2

open GigotBytes GigotObj

/-- `Commit` (pack_test.go version): the time fields keep what the code
keeps of a `time.Time` — Unix seconds and the fixed-zone offset. -/
structure Commit where
  tree : List Nat
  parents : List (List Nat)
  author : List Nat
  authorUnix : Int
  authorZone : Int
  committer : List Nat
  committerUnix : Int
  committerZone : Int
  message : List Nat
deriving DecidableEq, Repr

/-- The zero `time.Time` has `Unix() = -62135596800` (Jan 1, year 1 UTC). -/
def zeroTimeUnix : Int := -62135596800

/-- Commit-parser errors (`errMalformedCommitLine` and strconv errors,
which the source returns indistinguishably through `err`). -/
inductive CErr
  | malformed
  | convErr
deriving DecidableEq, Repr

/-- Outcome of `parseCommit`: the Go function can return a value,
return an error, or panic. -/
inductive PRes (α : Type)
  | ok (a : α)
  | err (e : CErr)
  | panicked (msg : List Nat)
deriving DecidableEq, Repr

/-- Go `bytes.LastIndexAny(l, " ")`: index of the last space, or -1. -/
def lastIndexSpace (l : List Nat) : Int :=
  match indexByte l.reverse 32 with
  | -1 => -1
  | i => (l.length : Int) - 1 - i

/-- Go `strconv.ParseInt(s, 10, 64)`: optional sign, then decimal digits. -/
def parseIntDec (l : List Nat) : Option Int :=
  match l with
  | 43 :: rest => (parseUintDec rest 63).map Int.ofNat
  | 45 :: rest => (parseUintDec rest 63).map (fun n => -(n : Int))
  | _ => (parseUintDec l 63).map Int.ofNat

/-- `parseAuthor` (pack_test.go): splits off the last two space-separated
tokens (unix seconds and `±HHMM`), checks the zone is exactly five bytes,
and returns (identity, unix, zone-offset seconds). -/
def parseAuthor (line : List Nat) : Except CErr (List Nat × Int × Int) :=
  let sp1 := lastIndexSpace line
  if sp1 < 0 then .error .malformed
  else
    let sp2 := lastIndexSpace (line.take sp1.toNat)
    if sp2 < 0 then .error .malformed
    else if sp1 + 6 ≠ (line.length : Int) then .error .malformed
    else
      let z := line.drop sp2.toNat
      match parseIntDec ((z.take (sp1 - sp2).toNat).drop 1) with
      | none => .error .convErr
      | some unix =>
        let z := z.drop (sp1 - sp2).toNat
        match parseIntDec ((z.take 4).drop 1) with
        | none => .error .convErr
        | some zhour =>
          match parseIntDec ((z.take 6).drop 4) with
          | none => .error .convErr
          | some zmin =>
            .ok (line.take sp2.toNat, unix, zhour * 3600 + zmin * 60)

/-- ASCII bytes of `"tree"`, `"parent"`, `"author"`, `"committer"`. -/
def kwTree : List Nat := [116, 114, 101, 101]
def kwParent : List Nat := [112, 97, 114, 101, 110, 116]
def kwAuthor : List Nat := [97, 117, 116, 104, 111, 114]
def kwCommitter : List Nat := [99, 111, 109, 109, 105, 116, 116, 101, 114]

/-- The zero-valued `Commit` the named return value starts from. -/
def emptyCommit : Commit :=
  { tree := List.replicate 20 0, parents := [], author := [],
    authorUnix := zeroTimeUnix, authorZone := 0, committer := [],
    committerUnix := zeroTimeUnix, committerZone := 0, message := [] }

/-- `parseCommit` (pack_test.go) loop, structurally recursive on fuel.
Errors from `parseAuthor` are assigned to `err` but the loop then falls
through and the final `return c, nil` discards them — mirrored here by
keeping the zero values for the field. Unrecognized header words hit
`panic("unrecognized commit header " + word)`. -/
def parseCommitF : Nat → List Nat → Commit → PRes Commit
  | _, [], c => .ok c
  | 0, _, _ => .err .malformed
  | fuel + 1, s, c =>
    let i := indexByte s 10
    if i < 0 then .err .malformed
    else
      let line := s.take i.toNat
      let s := s.drop (i.toNat + 1)
      if line = [] then .ok { c with message := s }
      else
        let sp := indexByte line 32
        if sp < 0 then .err .malformed
        else
          let word := line.take sp.toNat
          if word = kwTree then
            match hexDecode20 (line.drop (sp.toNat + 1)) with
            | none => .err .malformed
            | some h => parseCommitF fuel s { c with tree := h }
          else if word = kwParent then
            match hexDecode20 (line.drop (sp.toNat + 1)) with
            | none => .err .malformed
            | some h => parseCommitF fuel s { c with parents := c.parents ++ [h] }
          else if word = kwAuthor then
            match parseAuthor (line.drop (sp.toNat + 1)) with
            | .ok (n, u, z) =>
              parseCommitF fuel s { c with author := n, authorUnix := u, authorZone := z }
            | .error _ => parseCommitF fuel s c
          else if word = kwCommitter then
            match parseAuthor (line.drop (sp.toNat + 1)) with
            | .ok (n, u, z) =>
              parseCommitF fuel s
                { c with committer := n, committerUnix := u, committerZone := z }
            | .error _ => parseCommitF fuel s c
          else
            .panicked ([117, 110, 114, 101, 99, 111, 103, 110, 105, 122, 101, 100, 32,
              99, 111, 109, 109, 105, 116, 32, 104, 101, 97, 100, 101, 114, 32] ++ word)

/-- `parseCommit` (pack_test.go). -/
def parseCommit (s : List Nat) : PRes Commit :=
  parseCommitF (s.length + 1) s emptyCommit

/-- `%d` of an `int64`. -/
def intDecimal (i : Int) : List Nat :=
  if i < 0 then 45 :: decimal (-i).toNat else decimal i.toNat

/-- Two ASCII decimal digits, zero padded (as `time.Format` emits). -/
def twoDigits (n : Nat) : List Nat := [48 + n / 10 % 10, 48 + n % 10]

/-- `time.Time.Format("-0700")`: sign and `HHMM` of the zone offset. -/
def zoneFormat (off : Int) : List Nat :=
  let mins := (if off < 0 then -off else off).toNat / 60
  (if off < 0 then [45] else [43]) ++ twoDigits (mins / 60) ++ twoDigits (mins % 60)

/-- `Commit.WriteTo` body: tree, parents, author, committer, blank, message. -/
def commitBody (c : Commit) : List Nat :=
  kwTree ++ [32] ++ hexEncode c.tree ++ [10] ++
  c.parents.flatMap (fun p => kwParent ++ [32] ++ hexEncode p ++ [10]) ++
  kwAuthor ++ [32] ++ c.author ++ [32] ++ intDecimal c.authorUnix ++ [32] ++
    zoneFormat c.authorZone ++ [10] ++
  kwCommitter ++ [32] ++ c.committer ++ [32] ++ intDecimal c.committerUnix ++ [32] ++
    zoneFormat c.committerZone ++ [10] ++
  [10] ++ c.message

/-- `Commit.WriteTo`: `"commit %d\x00"` then the body. -/
def commitSer (c : Commit) : List Nat :=
  [99, 111, 109, 109, 105, 116, 32] ++ decimal (commitBody c).length ++ [0] ++
    commitBody c

/-- `Blob.WriteTo`: `"blob %d\x00"` then the data (identical in both
versions of object.go). -/
def blobSer (data : List Nat) : List Nat :=
  [98, 108, 111, 98, 32] ++ decimal data.length ++ [0] ++ data

end ObjV2

namespace ObjV2

open GigotBytes GigotObj

/-- Loose-envelope errors of `readLoose`. -/
inductive LErr
  | corruptHeader
  | invalidType
  | sizeMismatch
deriving DecidableEq, Repr

/-- `matchType` (object.go). -/
def matchType (t : ObjType) (s : List Nat) : Bool :=
  match t with
  | .blob => s = [98, 108, 111, 98]
  | .tree => s = [116, 114, 101, 101]
  | .commit => s = [99, 111, 109, 109, 105, 116]

/-- The envelope-scanning part of `readLoose`, applied to the decompressed
bytes (the zlib inflation itself is Go library code outside this
repository). Scans `<type> <size>\x00` within the first 32 bytes and
returns the type and payload. -/
def readLooseDecomp (s : List Nat) : Except LErr (ObjType × List Nat) :=
  let hdr := s.take 32
  if s.length < 4 then .error .corruptHeader
  else
    let sp := indexByte hdr 32
    let nul := indexByte hdr 0
    let t :=
      if s.getD 0 0 = 98 then ObjType.blob
      else if s.getD 0 0 = 99 then ObjType.commit
      else if s.getD 0 0 = 116 then ObjType.tree
      else ObjType.blob
    if sp < 0 ∨ ¬ matchType t (hdr.take sp.toNat) then .error .invalidType
    else if nul < 0 then .error .corruptHeader
    else
      match parseUintDec ((hdr.take nul.toNat).drop (sp.toNat + 1)) 64 with
      | none => .error .corruptHeader
      | some sz =>
        let payload := s.drop (nul.toNat + 1)
        if payload.length ≠ sz then .error .sizeMismatch
        else .ok (t, payload)

/-- A typed object with its `Hash` field, as built by `readObject`. -/
inductive Obj
  | blob (hash : List Nat) (data : List Nat)
  | tree (hash : List Nat) (entries : List TreeElem)
  | commit (hash : List Nat) (c : Commit)
deriving DecidableEq, Repr

/-- `Object.WriteTo` dispatch (this version of the file). -/
def objSer : Obj → List Nat
  | .blob _ d => blobSer d
  | .tree _ es => treeSer es
  | .commit _ c => commitSer c

/-- `rehash`: SHA-1 of the object's serialization. -/
def rehash (o : Obj) : List Nat := GigotSha1.sha1 (objSer o)

/-- `Object.ID`. -/
def Obj.id : Obj → List Nat
  | .blob h _ => h
  | .tree h _ => h
  | .commit h _ => h

/-- Outcome of `readObject`. -/
inductive ORes
  | ok (o : Obj)
  | err
  | panicked (msg : List Nat)
deriving DecidableEq, Repr

/-- `readObject` (pack_test.go): parse the payload by type and stamp the
object with `rehash` of itself. -/
def readObject (t : ObjType) (data : List Nat) : ORes :=
  match t with
  | .blob =>
    .ok (.blob (rehash (.blob [] data)) data)
  | .tree =>
    match parseTree data with
    | .ok es => .ok (.tree (rehash (.tree [] es)) es)
    | .error _ => .err
  | .commit =>
    match parseCommit data with
    | .ok c => .ok (.commit (rehash (.commit [] c)) c)
    | .err _ => .err
    | .panicked m => .panicked m

end ObjV2

namespace GigotLit

/-- Byte list of an ASCII string literal (each char must be < 128). -/
def asciiBytes (s : String) : List Nat := s.data.map Char.toNat

/-- Byte list from a hex string literal. -/
def hexLit (s : String) : List Nat :=
  let rec go : List Nat → List Nat
    | a :: b :: rest =>
      (((GigotBytes.hexVal a).getD 0) <<< 4 ||| (GigotBytes.hexVal b).getD 0) :: go rest
    | _ => []
  go (asciiBytes s)

end GigotLit

namespace GigotDelta

open GigotBytes

/-!
Embedding of `package gitdelta`. The file defining the Rabin constants
(`_W`, `degree`, the `_T`/`_U` tables, `hashRabin`) and the `Patch`
interpreter is not under src/ (only its callers and tests are), so those
parts are modelled from the spec; `Diff`, `hashChunks`,
`appendInlineData` and `appendRefData` are embedded from the source.
-/

/-- Modelled from the spec: the chunk width `_W` (§4.3 recommends 16,
"matching historical Git behavior"). -/
def chunkW : Nat := 16

/-- Modelled from the spec: the fingerprint degree (§4.3 recommends 31–32
bits; the source shifts by `degree-8 = 23`, giving degree 31). -/
def degree : Nat := 31

/-- Modelled from the spec: a fixed irreducible degree-31 polynomial over
`GF(2)` (the one historical Git uses for its delta fingerprints). -/
def rabinPoly : Nat := 0xab59b4d1

/-- Reduce a polynomial (bit string) modulo `rabinPoly`, clearing bits
`31+fuel-1 .. 31` from the top down. -/
def polyModAux : Nat → Nat → Nat
  | 0, x => x
  | k + 1, x =>
    polyModAux k (if x.testBit (k + 31) then x ^^^ (rabinPoly <<< k) else x)

/-- Modelled from the spec: `_T[b]` — the table entry cancelling the byte
`b` that overflows past bit 31 when the window shifts by 8. -/
def rabinT (b : Nat) : Nat :=
  (b <<< 31) ^^^ polyModAux 9 (b <<< 31)

/-- Modelled from the spec: `_U[b]` — the reduced contribution of the
oldest window byte (factor `x^(8*(W-1))`), subtracted when it slides out;
this choice makes the source's commented invariant
`p == hashRabin(data2[i-W:i])` hold. -/
def rabinU (b : Nat) : Nat :=
  polyModAux 98 (b <<< (8 * (chunkW - 1)))

/-- One step of the rolling hash, exactly the source's update
`p = (p << 8) ^ uint32(b) ^ _T[uint8(p>>(degree-8))]` (on `uint32`). -/
def rabinStep (p b : Nat) : Nat :=
  (((p <<< 8) &&& 0xFFFFFFFF) ^^^ b ^^^ rabinT ((p >>> (degree - 8)) &&& 255)) &&&
    0xFFFFFFFF

/-- Modelled from the spec: `hashRabin` — the fingerprint of one window,
obtained by folding the rolling step from zero (this is forced by the
`Diff` loop invariant `p == hashRabin(data2[i-W:i])`). -/
def hashRabin (l : List Nat) : Nat :=
  l.foldl rabinStep 0

/-- A Go `map[uint32]int`: lookup as a function. -/
def HashMapU : Type := Nat → Option Nat

/-- Go map assignment `m[k] = v`: later writes shadow earlier ones. -/
def mapIns (m : HashMapU) (k v : Nat) : HashMapU :=
  fun q => if q = k then some v else m q

/-- `hashChunks` loop (source): fingerprints the chunks at offsets
`(nbHash-1)*W, …, 2W, W` (note `i > 0`, so offset 0 is skipped),
overwriting on collision so the smallest offset wins (the iteration runs
downward and later writes shadow earlier ones). Written with a bare
`Nat.rec` so the kernel evaluates the large iteration iteratively. -/
def hashChunksF (input : ByteSrc) (fuel : Nat) : Nat → HashMapU → HashMapU :=
  Nat.rec (motive := fun _ => Nat → HashMapU → HashMapU)
    (fun _ acc => acc)
    (fun _ ih i acc =>
      if i > 0 then ih (i - chunkW) (mapIns acc (hashRabin (input.slice i chunkW)) i)
      else acc)
    fuel

/-- `hashChunks` (source). -/
def hashChunks (input : ByteSrc) : HashMapU :=
  let nbHash := input.size / chunkW
  hashChunksF input (nbHash + 1) ((nbHash - 1) * chunkW) (fun _ => none)

/-- Go `bytes.Equal(d1[o1:o1+n], d2[o2:o2+n])` for in-range slices. -/
def bufEqRange (d1 : ByteSrc) (o1 : Nat) (d2 : ByteSrc) (o2 n : Nat) : Bool :=
  decide (∀ j < n, d1.get (o1 + j) = d2.get (o2 + j))

/-- `binary.PutUvarint`. -/
def putUvarintF : Nat → Nat → List Nat
  | 0, _ => []
  | f + 1, n => if n < 0x80 then [n] else ((n &&& 0x7f) ||| 0x80) :: putUvarintF f (n >>> 7)

/-- `binary.PutUvarint` on a 64-bit value. -/
def putUvarint (n : Nat) : List Nat := putUvarintF 10 n

/-- `appendInlineData` loop body (source): emit chunks of at most 127
literal bytes, each preceded by its length; an empty run emits nothing. -/
def appendInlineDataF : Nat → List Nat → List Nat → List Nat
  | 0, patch, _ => patch
  | f + 1, patch, data =>
    if data.length > 0x7f then
      appendInlineDataF f (patch ++ 0x7f :: data.take 0x7f) (data.drop 0x7f)
    else if data.length > 0 then patch ++ data.length :: data
    else patch

/-- `appendInlineData` (source). -/
def appendInlineData (patch data : List Nat) : List Nat :=
  appendInlineDataF (data.length + 1) patch data

/-- The opcode and argument bytes of the trailing (≤ 0x10000) copy
instruction of `appendRefData`, including the source's `op |= 2` for the
third and fourth offset bytes. -/
def refDataOpBytes (off length : Nat) : Nat × List Nat :=
  let op := 0x80
  let (op, args) :=
    if off &&& 255 ≠ 0 then (op ||| 1, [off &&& 255]) else (op, [])
  let (op, args) :=
    if (off >>> 8) &&& 255 ≠ 0 then (op ||| 2, args ++ [(off >>> 8) &&& 255])
    else (op, args)
  let (op, args) :=
    if (off >>> 16) &&& 255 ≠ 0 then (op ||| 2, args ++ [(off >>> 16) &&& 255])
    else (op, args)
  let (op, args) :=
    if (off >>> 24) &&& 255 ≠ 0 then (op ||| 2, args ++ [(off >>> 24) &&& 255])
    else (op, args)
  let (op, args) :=
    if length &&& 255 ≠ 0 then (op ||| 0x10, args ++ [length &&& 255]) else (op, args)
  let (op, args) :=
    if (length >>> 8) &&& 255 ≠ 0 then (op ||| 0x20, args ++ [(length >>> 8) &&& 255])
    else (op, args)
  (op, args)

/-- The trailing copy instruction appended to the patch (the source
mutates `op`/`args` and then does `patch = append(patch, op); patch =
append(patch, args...)`). -/
def refDataOp (patch : List Nat) (off length : Nat) : List Nat :=
  patch ++ (refDataOpBytes off length).1 :: (refDataOpBytes off length).2

/-- `appendRefData` loop (source): emit full-size (`0x10000`) copies while
`length > 1<<16` (`off` is a `uint32` and wraps), then the final opcode. -/
def appendRefDataF : Nat → List Nat → Nat → Nat → List Nat
  | 0, patch, _, _ => patch
  | f + 1, patch, off, length =>
    if length > 0x10000 then
      let seg :=
        if off >>> 8 = 0 then [0x81, off &&& 255]
        else if off >>> 16 = 0 then [0x83, off &&& 255, (off >>> 8) &&& 255]
        else if off >>> 24 = 0 then
          [0x87, off &&& 255, (off >>> 8) &&& 255, (off >>> 16) &&& 255]
        else
          [0x8f, off &&& 255, (off >>> 8) &&& 255, (off >>> 16) &&& 255,
            (off >>> 24) &&& 255]
      appendRefDataF f (patch ++ seg) ((off + 0x10000) &&& 0xFFFFFFFF) (length - 0x10000)
    else refDataOp patch off length

/-- `appendRefData` (source). -/
def appendRefData (patch : List Nat) (off length : Nat) : List Nat :=
  appendRefDataF ((length >>> 16) + 1) patch off length

end GigotDelta

namespace GigotDelta

open GigotBytes

/-- The left-extension loop of a match (source): step back while bytes
agree and the previous emitted segment is not crossed. -/
def extLeft : Nat → ByteSrc → ByteSrc → Int → Nat → Nat → Nat × Nat
  | 0, _, _, _, refi, testi => (refi, testi)
  | f + 1, d1, d2, lastmatch, refi, testi =>
    if refi > 0 ∧ (testi : Int) > lastmatch + 1 ∧ d1.get (refi - 1) = d2.get (testi - 1)
    then extLeft f d1 d2 lastmatch (refi - 1) (testi - 1)
    else (refi, testi)

/-- The right-extension loop of a match (source). -/
def extRight : Nat → ByteSrc → ByteSrc → Nat → Nat → Nat × Nat
  | 0, _, _, refj, testj => (refj, testj)
  | f + 1, d1, d2, refj, testj =>
    if refj < d1.size ∧ testj < d2.size ∧ d1.get refj = d2.get testj
    then extRight f d1 d2 (refj + 1) (testj + 1)
    else (refj, testj)

/-- The rolling-hash replay over the skipped bytes after a match
(source: `for tmp, b := range skipped`). -/
def skipFold (d2 : ByteSrc) (i : Nat) : Nat → Nat → Nat → Nat
  | 0, _, p => p
  | f + 1, tmp, p =>
    skipFold d2 i f (tmp + 1) (rabinStep (p ^^^ rabinU (d2.get (i + tmp - chunkW))) (d2.get (i + tmp)))

/-- The main scan of `Diff` (source lines 43–93), structurally recursive
on fuel; `i`, `p`, `lastmatch` and the patch accumulator mirror the Go
locals, and the final `appendInlineData` of line 94 is performed on
every exit path. -/
def diffLoop (d1 d2 : ByteSrc) (hashes : HashMapU) :
    Nat → Nat → Nat → Int → List Nat → List Nat
  | 0, _, _, lastmatch, patch =>
    appendInlineData patch (d2.slice (lastmatch + 1).toNat (d2.size - (lastmatch + 1).toNat))
  | f + 1, i, p, lastmatch, patch =>
    if i ≥ d2.size then
      appendInlineData patch (d2.slice (lastmatch + 1).toNat (d2.size - (lastmatch + 1).toNat))
    else
      let b := d2.get i
      if i < chunkW then
        diffLoop d1 d2 hashes f (i + 1) (rabinStep p b) lastmatch patch
      else
        let hit :=
          match hashes p with
          | some refi => if bufEqRange d1 refi d2 (i - chunkW) chunkW then some refi else none
          | none => none
        match hit with
        | some refi0 =>
          let (refi, testi) := extLeft (i - chunkW + 1) d1 d2 lastmatch refi0 (i - chunkW)
          let (refj, testj) := extRight (d2.size - i + 1) d1 d2 (refi + (i - testi)) i
          let patch := appendInlineData patch (d2.slice (lastmatch + 1).toNat (testi - (lastmatch + 1).toNat))
          let patch := appendRefData patch refi (refj - refi)
          let skLen := if testj + chunkW < d2.size then testj + chunkW - i else d2.size - i
          let p := skipFold d2 i skLen 0 p
          let lastmatch : Int := (testj : Int) - 1
          if i + skLen = d2.size then
            appendInlineData patch (d2.slice (lastmatch + 1).toNat (d2.size - (lastmatch + 1).toNat))
          else
            let i := i + skLen
            let b := d2.get i
            let p := rabinStep (p ^^^ rabinU (d2.get (i - chunkW))) b
            diffLoop d1 d2 hashes f (i + 1) p lastmatch patch
        | none =>
          let p := rabinStep (p ^^^ rabinU (d2.get (i - chunkW))) b
          diffLoop d1 d2 hashes f (i + 1) p lastmatch patch

/-- `Diff` (source): varint header with both lengths, then the scan. -/
def Diff (data1 data2 : ByteSrc) : List Nat :=
  let patch := putUvarint data1.size ++ putUvarint data2.size
  let hashes := hashChunks data1
  diffLoop data1 data2 hashes (data2.size + 2) 0 0 (-1) patch

end GigotDelta

namespace GigotDelta

open GigotBytes

/-- Delta-application errors (§4.2/§7). -/
inductive DErr
  | badDeltaHeader
  | badDelta
  | sizeMismatch
deriving DecidableEq, Repr

/-- Little-endian size varint decoding (bit 7 continuation, seven payload
bits per byte, least-significant group first), returning the value and
the remaining bytes. -/
def getUvarint : Nat → List Nat → Option (Nat × List Nat)
  | 0, _ => none
  | _ + 1, [] => none
  | f + 1, b :: rest =>
    if b < 0x80 then some (b, rest)
    else (getUvarint f rest).map (fun vr => ((b &&& 0x7f) ||| (vr.1 <<< 7), vr.2))

/-- Read one optional little-endian argument byte of a copy opcode:
selected byte positions are consumed in order, unselected ones are zero. -/
def readSel (op bit : Nat) (rest : List Nat) : Option (Nat × List Nat) :=
  if op &&& (1 <<< bit) ≠ 0 then
    match rest with
    | [] => none
    | b :: r => some (b, r)
  else some (0, rest)

/-- Modelled from the spec: the opcode loop of the delta patch interpreter
`patch` of §4.2 (the `Patch` function of package gitdelta is not under
src/ — only its tests and callers are). Inserts have opcode `1..127`
followed by that many literals and `0` is rejected; copies have bit 7 set
and read offset bytes 0–3 then length bytes 0–2, a zero length meaning
`0x10000`; copies must stay within the base. -/
def patchLoop (base : ByteSrc) : Nat → List Nat → List Nat → Except DErr (List Nat)
  | _, [], out => .ok out
  | 0, _, _ => .error .badDelta
  | f + 1, op :: rest, out =>
    if op = 0 then .error .badDelta
    else if op < 0x80 then
      if rest.length < op then .error .badDelta
      else patchLoop base f (rest.drop op) (out ++ rest.take op)
    else
      let args := do
        let (o0, r) ← readSel op 0 rest
        let (o1, r) ← readSel op 1 r
        let (o2, r) ← readSel op 2 r
        let (o3, r) ← readSel op 3 r
        let (l0, r) ← readSel op 4 r
        let (l1, r) ← readSel op 5 r
        let (l2, r) ← readSel op 6 r
        pure (o0 ||| (o1 <<< 8) ||| (o2 <<< 16) ||| (o3 <<< 24),
          l0 ||| (l1 <<< 8) ||| (l2 <<< 16), r)
      match args with
      | none => .error .badDelta
      | some (off, len0, r) =>
        let len := if len0 = 0 then 0x10000 else len0
        if off + len ≤ base.size then patchLoop base f r (out ++ base.slice off len)
        else .error .badDelta

/-- Modelled from the spec: `patch(base, delta)` of §4.2 — decode the two
size varints, check `src_size == len(base)`, run the opcode loop, check
the produced length against `dst_size`. -/
def Patch (base : ByteSrc) (delta : List Nat) : Except DErr (List Nat) :=
  match getUvarint 11 delta with
  | none => .error .badDeltaHeader
  | some (src, rest) =>
    if src ≠ base.size then .error .badDeltaHeader
    else
      match getUvarint 11 rest with
      | none => .error .badDeltaHeader
      | some (dst, rest) =>
        match patchLoop base (rest.length + 1) rest [] with
        | .error e => .error e
        | .ok out => if out.length = dst then .ok out else .error .sizeMismatch

end GigotDelta

/-- Decidable equality for `Except` results. -/
instance {ε α : Type} [DecidableEq ε] [DecidableEq α] : DecidableEq (Except ε α) := fun a b =>
  match a, b with
  | .ok x, .ok y =>
    if h : x = y then isTrue (by rw [h]) else isFalse (fun he => by cases he; exact h rfl)
  | .error x, .error y =>
    if h : x = y then isTrue (by rw [h]) else isFalse (fun he => by cases he; exact h rfl)
  | .ok _, .error _ => isFalse (fun he => by cases he)
  | .error _, .ok _ => isFalse (fun he => by cases he)

namespace GigotPack

open GigotBytes

/-!
Embedding of the pack reader (the first of the two pack files in the
sources: the one built on `io.SectionReader` that also defines `extract`
and `extractAt`). Random-access sources are `ByteSrc`; DEFLATE inflation
(`readCompressed`, backed by `compress/zlib`, which is Go library code
outside this repository) is an oracle parameter: `some bytes` of the
expected length, or `none` for a read/decode failure.
-/

/-- Pack-layer errors. -/
inductive PErr
  | readErr
  | badPackMagic
  | badIdxMagic
  | unsupportedPackVersion
  | notFoundInPack
  | zlibErr
  | unexpectedEOF
  | invalidPackEntryType
  | patchErr (e : GigotDelta.DErr)
deriving DecidableEq, Repr

/-- `idxHeaderSize = 4 + 4 + 256*4`. -/
def idxHeaderSize : Nat := 1032

/-- `PackReader`: both sources plus the in-memory fanout. -/
structure PackReader where
  version : Nat
  pack : ByteSrc
  idx : ByteSrc
  idxFanout : Nat → Nat

/-- `ReadAt` into a buffer of `n` bytes at a non-negative offset: Go's
`io.SectionReader.ReadAt` returns an error (EOF) unless all `n` bytes
exist. -/
def readAtE (b : ByteSrc) (off : Int) (n : Nat) : Except PErr (List Nat) :=
  if 0 ≤ off ∧ off.toNat + n ≤ b.size then .ok (b.slice off.toNat n)
  else .error .readErr

/-- `ReadAt` whose EOF is tolerated by the caller (`err == io.EOF` is
cleared): the buffer keeps its zero fill past the end of the source. -/
def padSlice (b : ByteSrc) (off : Int) (n : Nat) : List Nat :=
  (List.range n).map
    (fun i => if 0 ≤ off ∧ off.toNat + i < b.size then b.get (off.toNat + i) else 0)

/-- The fanout loaded by `checkIdxMagic`: 256 big-endian words after the
8-byte header. -/
def loadFanout (idx : ByteSrc) (j : Nat) : Nat :=
  be32 (idx.slice (8 + 4 * j) 4) 0

/-- `checkIdxMagic`: magic `\xff t O c`, then load the fanout. -/
def checkIdxMagic (idx : ByteSrc) : Except PErr (Nat → Nat) :=
  match readAtE idx 0 idxHeaderSize with
  | .error e => .error e
  | .ok buf =>
    if [buf.getD 0 0, buf.getD 1 0, buf.getD 2 0, buf.getD 3 0] = [0xff, 116, 79, 99]
    then .ok (loadFanout idx)
    else .error .badIdxMagic

/-- `checkPackMagic`: magic `PACK` and version 2 (the version error,
assigned later, shadows the magic error as in the source; note the source
reads `count` from bytes 4..8 as well). -/
def checkPackMagic (pack : ByteSrc) : Except PErr (Nat × Nat) :=
  match readAtE pack 0 12 with
  | .error e => .error e
  | .ok buf =>
    let version := be32 buf 4
    let count := be32 buf 4
    if version ≠ 2 then .error .unsupportedPackVersion
    else if [buf.getD 0 0, buf.getD 1 0, buf.getD 2 0, buf.getD 3 0] = [80, 65, 67, 75]
    then .ok (version, count)
    else .error .badPackMagic

/-- `NewPackReader`. -/
def NewPackReader (pack idx : ByteSrc) : Except PErr PackReader :=
  match checkPackMagic pack with
  | .error e => .error e
  | .ok (version, _) =>
    match checkIdxMagic idx with
    | .error e => .error e
    | .ok fanout => .ok { version := version, pack := pack, idx := idx, idxFanout := fanout }

/-- The binary-search loop of `findObject` (SectionReader version):
`for min < max`, halving with `min = med+1` / `max = med-1` and breaking
with `min = max = med` on an exact hit. Returns the final `(min, max)`. -/
def findLoopA (pk : PackReader) (hash : List Nat) : Nat → Int → Int → Except PErr (Int × Int)
  | 0, mn, mx => .ok (mn, mx)
  | f + 1, mn, mx =>
    if mn < mx then
      let med := (mn + mx) / 2
      match readAtE pk.idx (idxHeaderSize + med * 20) 20 with
      | .error e => .error e
      | .ok hmed =>
        let cmp := bytesCompare hmed hash
        if cmp < 0 then findLoopA pk hash f (med + 1) mx
        else if cmp > 0 then findLoopA pk hash f mn (med - 1)
        else .ok (med, med)
    else .ok (mn, mx)

/-- Interpret 8 big-endian bytes as a Go `int64`. -/
def toInt64 (n : Nat) : Int :=
  if n < 2 ^ 63 then (n : Int) else (n : Int) - 2 ^ 64

/-- `findObject` (SectionReader version): fanout bounds, the search loop,
`errNotFoundInPack` only when `min > max`, then the 32-bit offset table
and, for a negative `int32`, the 64-bit table at index `min`. -/
def findObject (pk : PackReader) (hash : List Nat) : Except PErr Int :=
  let mn : Int := if hash.getD 0 0 > 0 then pk.idxFanout (hash.getD 0 0 - 1) else 0
  let mx : Int := pk.idxFanout (hash.getD 0 0)
  match readAtE pk.idx (idxHeaderSize + mn * 20) 20 with
  | .error e => .error e
  | .ok _ =>
    match readAtE pk.idx (idxHeaderSize + mx * 20) 20 with
    | .error e => .error e
    | .ok _ =>
      match findLoopA pk hash ((mx - mn).toNat + 2) mn mx with
      | .error e => .error e
      | .ok (mn, mx) =>
        if mn > mx then .error .notFoundInPack
        else
          let objcount : Int := pk.idxFanout 0xff
          match readAtE pk.idx (idxHeaderSize + 24 * objcount + 4 * mn) 4 with
          | .error e => .error e
          | .ok offb =>
            let off32 := be32 offb 0
            if off32 < 2 ^ 31 then .ok off32
            else
              match readAtE pk.idx (idxHeaderSize + 28 * objcount + 8 * mn) 8 with
              | .error e => .error e
              | .ok offb => .ok (toInt64 (be64 offb 0))

/-- The binary-search loop of the second `findObject` (the `File`-based
copy of the pack reader): `for max-min >= 2`, moving `min = med` /
`max = med`; no confirmation and no `errNotFoundInPack` on exit. -/
def findLoopB (pk : PackReader) (hash : List Nat) : Nat → Int → Int → Except PErr (Int × Int)
  | 0, mn, mx => .ok (mn, mx)
  | f + 1, mn, mx =>
    if mx - mn ≥ 2 then
      let med := (mn + mx) / 2
      match readAtE pk.idx (idxHeaderSize + med * 20) 20 with
      | .error e => .error e
      | .ok hmed =>
        let cmp := bytesCompare hmed hash
        if cmp < 0 then findLoopB pk hash f med mx
        else if cmp > 0 then findLoopB pk hash f mn med
        else .ok (med, med)
    else .ok (mn, mx)

/-- `findObject` (File-based version, part_002 lines 411–463): after the
loop it goes straight to the offset tables — `errNotFoundInPack` is
declared in that file but never returned. -/
def findObjectB (pk : PackReader) (hash : List Nat) : Except PErr Int :=
  let mn : Int := if hash.getD 0 0 > 0 then pk.idxFanout (hash.getD 0 0 - 1) else 0
  let mx : Int := pk.idxFanout (hash.getD 0 0)
  match readAtE pk.idx (idxHeaderSize + mn * 20) 20 with
  | .error e => .error e
  | .ok _ =>
    match readAtE pk.idx (idxHeaderSize + mx * 20) 20 with
    | .error e => .error e
    | .ok _ =>
      match findLoopB pk hash ((mx - mn).toNat + 2) mn mx with
      | .error e => .error e
      | .ok (mn, _) =>
        let objcount : Int := pk.idxFanout 0xff
        match readAtE pk.idx (idxHeaderSize + 24 * objcount + 4 * mn) 4 with
        | .error e => .error e
        | .ok offb =>
          let off32 := be32 offb 0
          if off32 < 2 ^ 31 then .ok off32
          else
            match readAtE pk.idx (idxHeaderSize + 28 * objcount + 8 * mn) 8 with
            | .error e => .error e
            | .ok offb => .ok (toInt64 (be64 offb 0))

end GigotPack

namespace GigotPack

open GigotBytes

/-- `binary.Uvarint` over a 16-byte buffer: value and byte count
(`(0, 0)` when the buffer ends before the terminating byte, as in Go). -/
def uvarint (buf : List Nat) : Nat × Nat :=
  let rec go : List Nat → Nat → Nat → Nat × Nat
    | [], _, _ => (0, 0)
    | b :: rest, shift, acc =>
      if b < 0x80 then (acc ||| (b <<< shift), shift / 7 + 1)
      else go rest (shift + 7) (acc ||| ((b &&& 0x7f) <<< shift))
  go buf 0 0

/-- `readVaroffset`: the pseudo-varint for delta base distances
(`if i > 0 then u++`; `u = u<<7 | (b &^ 0x80)`; stop on a clear bit 7). -/
def readVaroffset (r : ByteSrc) (offset : Int) : Except PErr (Nat × Nat) :=
  let avail := if 0 ≤ offset ∧ offset.toNat < r.size then min 16 (r.size - offset.toNat) else 0
  let buf := r.slice offset.toNat avail
  let rec go : List Nat → Nat → Nat → Except PErr (Nat × Nat)
    | [], _, _ => .error .unexpectedEOF
    | b :: rest, i, u =>
      let u := if i > 0 then u + 1 else u
      let u := (u <<< 7) ||| (b &&& 0x7f)
      if b &&& 0x80 = 0 then .ok (u, i + 1) else go rest (i + 1) u
  go buf 0 0

/-- The inflation oracle standing for `readCompressed` (zlib): given the
pack source, a start offset and the expected uncompressed length, it
yields the inflated bytes or fails. -/
def Inflate : Type := ByteSrc → Int → Nat → Option (List Nat)

/-- Result of `extractAt`/`extract`: a typed raw payload, an error, or
divergence (the embedding's fuel ran out — the source recursion has no
depth bound at all, so a cyclic delta chain never returns). -/
inductive XRes
  | ok (typ : Nat) (data : List Nat)
  | err (e : PErr)
  | diverge
deriving DecidableEq, Repr

/-- Wire type tags (`pkCommit = 1 … pkRefDelta = 7`). -/
def pkCommit : Nat := 1
def pkTree : Nat := 2
def pkBlob : Nat := 3
def pkTag : Nat := 4
def pkOfsDelta : Nat := 6
def pkRefDelta : Nat := 7

/-- `extractAt` (source): decode the entry header at `off`, inflate base
entries directly, and resolve `REF_DELTA`/`OFS_DELTA` by recursion
followed by `gitdelta.Patch`. The `ReadAt` of the 16 header bytes
tolerates EOF (zero-filled buffer); the error of the delta-payload
`readCompressed` is assigned but immediately overwritten by the recursive
call, as in the source, so a failed inflation leaves the zero-filled
`make([]byte, objsize)` buffer as the patch. The `REF_DELTA` branch
inlines `extract` (which is exactly `findObject` followed by
`extractAt`); fuel counts recursive hops. -/
def extractAt : Nat → PackReader → Inflate → Int → XRes
  | 0, _, _, _ => .diverge
  | f + 1, pk, inflate, off =>
    if off < 0 then .err .readErr
    else
      let buf := padSlice pk.pack off 16
      let vn := uvarint buf
      let objsize := ((vn.1 >>> 7) <<< 4) ||| (vn.1 &&& 0xf)
      let objtype := (vn.1 >>> 4) &&& 0x7
      if objtype = pkCommit ∨ objtype = pkTree ∨ objtype = pkBlob ∨ objtype = pkTag then
        match inflate pk.pack (off + vn.2) objsize with
        | some data => .ok objtype data
        | none => .err .zlibErr
      else if objtype = pkRefDelta then
        match readAtE pk.pack (off + vn.2) 20 with
        | .error e => .err e
        | .ok parent =>
          let patch := (inflate pk.pack (off + vn.2 + 20) objsize).getD
            (List.replicate objsize 0)
          let base :=
            match findObject pk parent with
            | .error e => XRes.err e
            | .ok poff => extractAt f pk inflate poff
          match base with
          | .diverge => .diverge
          | .err e => .err e
          | .ok typ data =>
            match GigotDelta.Patch (ofList data) patch with
            | .error e => .err (.patchErr e)
            | .ok res => .ok typ res
      else if objtype = pkOfsDelta then
        match readVaroffset pk.pack (off + vn.2) with
        | .error e => .err e
        | .ok (parentOff, n2) =>
          let patch := (inflate pk.pack (off + vn.2 + n2) objsize).getD
            (List.replicate objsize 0)
          match extractAt f pk inflate (off - parentOff) with
          | .diverge => .diverge
          | .err e => .err e
          | .ok typ data =>
            match GigotDelta.Patch (ofList data) patch with
            | .error e => .err (.patchErr e)
            | .ok res => .ok typ res
      else .err .invalidPackEntryType

/-- `extract` (source): look the hash up in the index, then `extractAt`. -/
def extract (fuel : Nat) (pk : PackReader) (inflate : Inflate) (h : List Nat) : XRes :=
  match findObject pk h with
  | .error e => .err e
  | .ok off => extractAt fuel pk inflate off

/-- Result of the public `Extract`. -/
inductive ERes
  | ok (o : ObjV2.Obj)
  | err (e : PErr)
  | panicked
  | diverge
deriving DecidableEq, Repr

/-- `Extract` (source): dispatch the raw payload through `readObject`;
an unexpected type tag panics. -/
def Extract (fuel : Nat) (pk : PackReader) (inflate : Inflate) (h : List Nat) : ERes :=
  match extract fuel pk inflate h with
  | .diverge => .diverge
  | .err e => .err e
  | .ok typ data =>
    let t :=
      if typ = pkCommit then some GigotObj.ObjType.commit
      else if typ = pkTree then some GigotObj.ObjType.tree
      else if typ = pkBlob then some GigotObj.ObjType.blob
      else none
    match t with
    | none => .panicked
    | some t =>
      match ObjV2.readObject t data with
      | .ok o => .ok o
      | .err => .err .readErr
      | .panicked _ => .panicked

/-- Two successive `extract` calls on the same reader (the reader holds no
mutable state after construction, so the second call sees the identical
`PackReader`). -/
def extractTwice (fuel : Nat) (pk : PackReader) (inflate : Inflate) (h : List Nat) :
    XRes × XRes :=
  let r1 := extract fuel pk inflate h
  let r2 := extract fuel pk inflate h
  (r1, r2)

/-- Two successive public `Extract` calls on the same reader. -/
def ExtractTwice (fuel : Nat) (pk : PackReader) (inflate : Inflate) (h : List Nat) :
    ERes × ERes :=
  let r1 := Extract fuel pk inflate h
  let r2 := Extract fuel pk inflate h
  (r1, r2)

end GigotPack

namespace GigotSpecOrder

open GigotBytes GigotObj

/-!
The directory-suffix ordering of spec §4.4, written from the spec's words
for comparison with what `parseTree` actually does (the source has no
ordering check).
-/

/-- Spec §4.4: a directory entry is compared as if its name were suffixed
by `/` (git type nibble 4). -/
def dirSuffixKey (e : TreeElem) : List Nat :=
  e.name ++ (if (gitMode e.mode) >>> 12 = 4 then [47] else [])

/-- Spec §4.4: strict increase under the directory-suffix comparator. -/
def specLessB (a b : TreeElem) : Bool :=
  bytesCompare (dirSuffixKey a) (dirSuffixKey b) = -1

/-- Spec §4.4: the whole entry sequence is strictly increasing. -/
def specOrderedB : List TreeElem → Bool
  | [] => true
  | [_] => true
  | a :: b :: rest => specLessB a b && specOrderedB (b :: rest)

end GigotSpecOrder

namespace GigotIn

open GigotBytes GigotLit

/-- C6/C7 inputs: a tree entry with the five-digit directory mode `40000`. -/
def treePayload5 : List Nat :=
  asciiBytes "40000 d" ++ [0] ++ hexLit "980a0d5f19a64b4b30a87d4206aade58726b60e3"

/-- A two-entry tree payload whose names are out of order (`b` before `a`). -/
def treePayloadBA : List Nat :=
  asciiBytes "100644 b" ++ [0] ++ hexLit "216e97ce08229b8776d3feb731c6d23a2f669ac8" ++
  asciiBytes "100644 a" ++ [0] ++ hexLit "e965047ad7c57865823c7d992b1d046ea66edf78"

/-- C5 input: a commit payload with an `encoding` header. -/
def commitPayloadEnc : List Nat :=
  asciiBytes "tree 504094bacb51b85f453161900acc5989f2f38688\nencoding latin1\n\nmsg\n"

/-- C2 input: an index holding exactly one object, the all-zero hash, with
`fanout[j] = 1` for every `j`, `OFF32[0] = 12`, and 40 trailing checksum
bytes whose slot at offset 1060 reads as `7`. -/
def idxC2 : ByteSrc :=
  { size := 1100
    get := fun i =>
      if i = 0 then 255 else if i = 1 then 116 else if i = 2 then 79
      else if i = 3 then 99
      else if i < 1032 then (if i % 4 = 3 then (if i < 8 then 2 else 1) else 0)
      else if i = 1059 then 12
      else if i = 1063 then 7
      else 0 }

/-- C3 input: as `idxC2` but `OFF32[0] = 0x80000001` (top bit set, low 31
bits = 1), `OFF64[0] = 256` and `OFF64[1] = 512`. -/
def idxC3 : ByteSrc :=
  { size := 1076
    get := fun i =>
      if i = 0 then 255 else if i = 1 then 116 else if i = 2 then 79
      else if i = 3 then 99
      else if i < 1032 then (if i % 4 = 3 then (if i < 8 then 2 else 1) else 0)
      else if i = 1056 then 128
      else if i = 1059 then 1
      else if i = 1066 then 1
      else if i = 1074 then 2
      else 0 }

/-- The reader state `NewPackReader` leaves for a valid index: the fanout
cached from the index header. -/
def mkReader (pack idx : ByteSrc) : GigotPack.PackReader :=
  { version := 2, pack := pack, idx := idx, idxFanout := GigotPack.loadFanout idx }

/-- A hash that is not in `idxC2` (the only stored hash is all-zero). -/
def hashAbsent : List Nat := List.replicate 19 0 ++ [1]

/-- C4 input: a 14-byte pack whose single entry at offset 12 is an
`OFS_DELTA` header byte `0x60` (type 6, size 0) followed by the
back-distance byte `0x00`. -/
def packCycle : ByteSrc :=
  GigotBytes.ofList [80, 65, 67, 75, 0, 0, 0, 2, 0, 0, 0, 1, 0x60, 0x00]

/-- The reader for the C4 pack (the index is never consulted on the
`OFS_DELTA` path). -/
def pkCycle : GigotPack.PackReader :=
  { version := 2, pack := packCycle, idx := GigotBytes.ofList [], idxFanout := fun _ => 0 }

end GigotIn

/-- C5: a commit payload whose header section contains a header line whose
first word is not tree/parent/author/committer — here `encoding` — makes
`parseCommit` panic (`panic("unrecognized commit header " + word)`), not
return normally: the claim fails on the code. -/
theorem c5_parseCommit_panics_on_encoding_header :
    ObjV2.parseCommit GigotIn.commitPayloadEnc =
      .panicked (GigotLit.asciiBytes "unrecognized commit header encoding") := by
  decide

/-- C6: the cited `parseTree` (object.go) requires the space at index
exactly 6 (`sp != 6` rejects), so the five-digit directory mode `40000`
is rejected with `errBadTreeData`, while the revised copy of the same
function carried in pack_test.go accepts it — the claim fails on the
cited code. -/
theorem c6_parseTree_rejects_short_mode :
    ObjV1.parseTree GigotIn.treePayload5 = .error .badTree ∧
    ObjV2.parseTree GigotIn.treePayload5 =
      .ok [{ name := [100], mode := GigotObj.osMode 0o40000,
             hash := GigotLit.hexLit "980a0d5f19a64b4b30a87d4206aade58726b60e3" }] := by
  constructor
  · decide
  · decide

/-- C2 (counter-evidence): looking up a hash that is not among the stored
hashes (the index holds exactly the all-zero hash; `fanout[255] = 1`)
does not return `ObjectNotInPack`: the search loop exits with
`min = max = 1` without confirming `HASHES[min] == h`, and `findObject`
returns the bytes it finds in the offset column as a valid offset. -/
theorem c2_absent_hash_gets_offset :
    GigotPack.findObject (GigotIn.mkReader (GigotBytes.ofList []) GigotIn.idxC2)
        GigotIn.hashAbsent = .ok 7 ∧
    GigotIn.idxC2.slice 1032 20 = List.replicate 20 0 ∧
    GigotPack.loadFanout GigotIn.idxC2 255 = 1 ∧
    GigotIn.hashAbsent ≠ List.replicate 20 0 := by
  refine ⟨by decide, by decide, by decide, by decide⟩

/-- C3 (counter-evidence): for the entry whose 32-bit offset is
`0x80000001` (top bit set, low 31 bits = 1), the claim predicts the
64-bit offset `OFF64[1] = 512`, but `findObject` reads the 64-bit table
at the hash-table position `min = 0` and returns `OFF64[0] = 256`. -/
theorem c3_off64_indexed_by_position_not_low_bits :
    GigotPack.findObject (GigotIn.mkReader (GigotBytes.ofList []) GigotIn.idxC3)
        (List.replicate 20 0) = .ok 256 ∧
    GigotBytes.be32 (GigotIn.idxC3.slice 1056 4) 0 = 0x80000001 ∧
    GigotBytes.be64 (GigotIn.idxC3.slice (1032 + 28 * 1 + 8 * 1) 8) 0 = 512 := by
  refine ⟨by decide, by decide, by decide⟩

/-- C7 (counterexample): `parseTree` performs no ordering check — the
payload whose entries are `b` then `a` (strictly decreasing under the
§4.4 directory-suffix comparator) parses successfully instead of being
rejected with `BadTree`. -/
theorem c7_counterexample_out_of_order_accepted :
    ObjV1.parseTree GigotIn.treePayloadBA =
      .ok [{ name := [98], mode := GigotObj.osMode 0o100644,
             hash := GigotLit.hexLit "216e97ce08229b8776d3feb731c6d23a2f669ac8" },
           { name := [97], mode := GigotObj.osMode 0o100644,
             hash := GigotLit.hexLit "e965047ad7c57865823c7d992b1d046ea66edf78" }] ∧
    GigotSpecOrder.specOrderedB
      [{ name := [98], mode := GigotObj.osMode 0o100644,
         hash := GigotLit.hexLit "216e97ce08229b8776d3feb731c6d23a2f669ac8" },
       { name := [97], mode := GigotObj.osMode 0o100644,
         hash := GigotLit.hexLit "e965047ad7c57865823c7d992b1d046ea66edf78" }] = false := by
  refine ⟨by decide, by decide⟩

/-- C4 (counter-evidence): an `OFS_DELTA` entry whose encoded
back-distance is 0 is not rejected — `extractAt` recurses on
`off - 0 = off` and never returns, whatever the recursion budget: the
embedding exhausts every fuel value. The code has no depth cap either
(the recursion carries no counter at all), so delta-chain resolution does
not terminate for every input pack. -/
theorem c4_zero_distance_ofs_delta_diverges :
    ∀ (fuel : Nat) (inflate : GigotPack.Inflate),
      GigotPack.extractAt fuel GigotIn.pkCycle inflate 12 = .diverge := by
  intro fuel
  induction fuel with
  | zero => intro inflate; rfl
  | succ f ih =>
    intro inflate
    have key : GigotPack.extractAt (f + 1) GigotIn.pkCycle inflate 12 =
        (match GigotPack.extractAt f GigotIn.pkCycle inflate 12 with
         | .diverge => GigotPack.XRes.diverge
         | .err e => GigotPack.XRes.err e
         | .ok typ data =>
           match GigotDelta.Patch (GigotBytes.ofList data)
               ((inflate GigotIn.pkCycle.pack 14 0).getD (List.replicate 0 0)) with
           | .error e => GigotPack.XRes.err (.patchErr e)
           | .ok res => GigotPack.XRes.ok typ res) := rfl
    rw [key, ih inflate]

/-- C9: extraction is deterministic — on the same `PackReader` (which is
immutable after construction: the embedding threads no state because the
source mutates none) two successive `extract` calls return the identical
typed payload, and two successive public `Extract` calls return the
identical object, hence byte-equal payloads and equal ids. -/
theorem c9_extract_idempotent :
    ∀ (fuel : Nat) (pk : GigotPack.PackReader) (inflate : GigotPack.Inflate)
      (h : List Nat),
      GigotPack.extractTwice fuel pk inflate h =
        (GigotPack.extract fuel pk inflate h, GigotPack.extract fuel pk inflate h) ∧
      GigotPack.ExtractTwice fuel pk inflate h =
        (GigotPack.Extract fuel pk inflate h, GigotPack.Extract fuel pk inflate h) ∧
      (GigotPack.ExtractTwice fuel pk inflate h).1 =
        (GigotPack.ExtractTwice fuel pk inflate h).2 := by
  intro fuel pk inflate h
  exact ⟨rfl, rfl, rfl⟩

namespace GigotLemmas

open GigotBytes

/-- `indexByte` finds the first occurrence: prepending bytes that are not
`c` shifts the index by their count. -/
theorem indexByte_append (l r : List Nat) (c : Nat) (hl : c ∉ l) :
    indexByte (l ++ c :: r) c = l.length := by
  induction l with
  | nil => simp [indexByte]
  | cons a as ih =>
    have ha : a ≠ c := by intro he; exact hl (he ▸ List.mem_cons_self a as)
    have has : c ∉ as := fun hm => hl (List.mem_cons_of_mem a hm)
    have h' := ih has
    simp only [List.cons_append, indexByte, List.append_eq]
    rw [h']
    have hne : (as.length : Int) ≠ -1 := by omega
    rw [if_neg hne]
    simp only [List.length_cons]
    push_cast
    rw [if_neg ha]

/-- Digits produced by `digitsF` lie in the ASCII digit range. -/
theorem digitsF_mem (base : Nat) (hb : 2 ≤ base) (hb10 : base ≤ 10) :
    ∀ f n c, c ∈ digitsF base f n → 48 ≤ c ∧ c ≤ 48 + (base - 1) := by
  intro f
  induction f with
  | zero => intro n c hc; simp [digitsF] at hc
  | succ f ih =>
    intro n c hc
    simp only [digitsF] at hc
    by_cases h : n < base
    · rw [if_pos h] at hc
      simp at hc
      omega
    · rw [if_neg h] at hc
      rcases List.mem_append.mp hc with h1 | h2
      · exact ih _ _ h1
      · simp at h2
        have : n % base < base := Nat.mod_lt _ (by omega)
        omega

/-- Folding the base-`base` accumulator over `digitsF` recovers the value. -/
theorem digitsF_foldl (base : Nat) (hb : 2 ≤ base) :
    ∀ f n acc, n < base ^ f →
      (digitsF base f n).foldl (fun a c => a * base + (c - 48)) acc =
        acc * base ^ (digitsF base f n).length + n := by
  intro f
  induction f with
  | zero =>
    intro n acc h
    simp only [pow_zero, Nat.lt_one_iff] at h
    subst h
    simp [digitsF]
  | succ f ih =>
    intro n acc h
    simp only [digitsF]
    by_cases hn : n < base
    · rw [if_pos hn]
      simp [pow_one]
    · rw [if_neg hn]
      have hdiv : n / base < base ^ f := by
        rw [Nat.div_lt_iff_lt_mul (by omega)]
        calc n < base ^ (f + 1) := h
        _ = base ^ f * base := by ring
      rw [List.foldl_append, ih _ acc hdiv]
      simp only [List.foldl_cons, List.foldl_nil, List.length_append, List.length_cons,
        List.length_nil, Nat.add_zero]
      have hmod : 48 + n % base - 48 = n % base := by omega
      rw [hmod, pow_succ]
      calc (acc * base ^ (digitsF base f (n / base)).length + n / base) * base + n % base
          = acc * (base ^ (digitsF base f (n / base)).length * base) +
              (base * (n / base) + n % base) := by ring
        _ = acc * (base ^ (digitsF base f (n / base)).length * base) + n := by
            rw [Nat.div_add_mod]

/-- `digitsF` is nonempty (with nonzero fuel). -/
theorem digitsF_ne_nil (base : Nat) (f n : Nat) : digitsF base (f + 1) n ≠ [] := by
  simp only [digitsF]
  by_cases hn : n < base
  · simp [hn]
  · rw [if_neg hn]
    simp

/-- Length bound: a value below `base^k` needs at most `k` digits. -/
theorem digitsF_length (base : Nat) (hb : 2 ≤ base) :
    ∀ f n k, n < base ^ k → 1 ≤ k → (digitsF base f n).length ≤ k := by
  intro f
  induction f with
  | zero => intro n k h hk; simp [digitsF]
  | succ f ih =>
    intro n k h hk
    simp only [digitsF]
    by_cases hn : n < base
    · simp [hn]; omega
    · rw [if_neg hn]
      simp only [List.length_append, List.length_cons, List.length_nil]
      have hk2 : 2 ≤ k := by
        by_contra hlt
        have : k = 1 := by omega
        subst this
        simp at h
        omega
      have hdiv : n / base < base ^ (k - 1) := by
        rw [Nat.div_lt_iff_lt_mul (by omega)]
        calc n < base ^ k := h
        _ = base ^ (k - 1) * base := by
            rw [← pow_succ]
            congr 1
            omega
      have := ih (n / base) (k - 1) hdiv (by omega)
      omega

end GigotLemmas

namespace GigotLemmas

open GigotBytes

/-- Octal digits are ASCII `0`–`7`. -/
theorem octalDigits_mem (n c : Nat) (hc : c ∈ octalDigits n) : 48 ≤ c ∧ c ≤ 55 := by
  have := digitsF_mem 8 (by omega) (by omega) (n + 1) n c hc
  omega

/-- Decimal digits are ASCII `0`–`9`. -/
theorem decimal_mem (n c : Nat) (hc : c ∈ decimal n) : 48 ≤ c ∧ c ≤ 57 := by
  have := digitsF_mem 10 (by omega) (by omega) (n + 1) n c hc
  omega

/-- The octal rendering folds back to the value. -/
theorem octalDigits_foldl (n : Nat) :
    (octalDigits n).foldl (fun a c => a * 8 + (c - 48)) 0 = n := by
  have h := digitsF_foldl 8 (by omega) (n + 1) n 0 (by
    calc n < 8 ^ n := Nat.lt_pow_self (by omega) n
    _ ≤ 8 ^ (n + 1) := Nat.pow_le_pow_right (by omega) (by omega))
  simpa [octalDigits] using h

/-- The decimal rendering folds back to the value. -/
theorem decimal_foldl (n : Nat) :
    (decimal n).foldl (fun a c => a * 10 + (c - 48)) 0 = n := by
  have h := digitsF_foldl 10 (by omega) (n + 1) n 0 (by
    calc n < 10 ^ n := Nat.lt_pow_self (by omega) n
    _ ≤ 10 ^ (n + 1) := Nat.pow_le_pow_right (by omega) (by omega))
  simpa [decimal] using h

/-- Values below `8^k` need at most `k` octal digits. -/
theorem octalDigits_length (n k : Nat) (h : n < 8 ^ k) (hk : 1 ≤ k) :
    (octalDigits n).length ≤ k :=
  digitsF_length 8 (by omega) (n + 1) n k h hk

/-- Values below `10^k` need at most `k` decimal digits. -/
theorem decimal_length (n k : Nat) (h : n < 10 ^ k) (hk : 1 ≤ k) :
    (decimal n).length ≤ k :=
  digitsF_length 10 (by omega) (n + 1) n k h hk

/-- The decimal rendering is nonempty. -/
theorem decimal_ne_nil (n : Nat) : decimal n ≠ [] :=
  digitsF_ne_nil 10 n n

/-- `%06o` produces exactly six digit bytes for 16-bit values. -/
theorem octal6_length (n : Nat) (h : n < 2 ^ 16) : (octal6 n).length = 6 := by
  have h8 : n < 8 ^ 6 := by
    calc n < 2 ^ 16 := h
    _ ≤ 8 ^ 6 := by norm_num
  have := octalDigits_length n 6 h8 (by omega)
  simp only [octal6, List.length_append, List.length_replicate]
  omega

/-- All bytes of `%06o` output are octal digit characters. -/
theorem octal6_mem (n c : Nat) (hc : c ∈ octal6 n) : 48 ≤ c ∧ c ≤ 55 := by
  simp only [octal6, List.mem_append] at hc
  rcases hc with h | h
  · have := List.eq_of_mem_replicate h
    omega
  · exact octalDigits_mem n c h

/-- Leading ASCII zeros do not change the folded value. -/
theorem foldl_replicate_zero (base k : Nat) (l : List Nat) :
    (List.replicate k 48 ++ l).foldl (fun a c => a * base + (c - 48)) 0 =
      l.foldl (fun a c => a * base + (c - 48)) 0 := by
  induction k with
  | zero => simp
  | succ k ih => simpa [List.replicate_succ] using ih

/-- `ParseUint(octal6 v, 8, 16)` recovers a 16-bit value. -/
theorem parseUintOct_octal6 (v : Nat) (h : v < 2 ^ 16) :
    parseUintOct (octal6 v) 16 = some v := by
  have hne : octal6 v ≠ [] := by
    intro he
    have := octal6_length v h
    rw [he] at this
    simp at this
  have hall : (octal6 v).all (fun c => 48 ≤ c ∧ c ≤ 55) = true := by
    rw [List.all_eq_true]
    intro c hc
    have := octal6_mem v c hc
    simp
    omega
  simp only [parseUintOct, if_neg hne, hall, if_pos]
  have hv : (octal6 v).foldl (fun a c => a * 8 + (c - 48)) 0 = v := by
    simp only [octal6]
    rw [foldl_replicate_zero]
    exact octalDigits_foldl v
  rw [hv, if_pos h]

/-- `ParseUint(decimal n, 10, 64)` recovers a 64-bit value. -/
theorem parseUintDec_decimal (n : Nat) (h : n < 2 ^ 64) :
    parseUintDec (decimal n) 64 = some n := by
  have hall : (decimal n).all (fun c => 48 ≤ c ∧ c ≤ 57) = true := by
    rw [List.all_eq_true]
    intro c hc
    have := decimal_mem n c hc
    simp
    omega
  simp only [parseUintDec, if_neg (decimal_ne_nil n), hall, if_pos]
  rw [decimal_foldl, if_pos h]

end GigotLemmas

namespace GigotLemmas

open GigotBytes GigotObj

/-- `gitMode` always fits in 16 bits (`Mode` is a `uint16`). -/
theorem gitMode_lt (m : Nat) : gitMode m < 2 ^ 16 := by
  have hand : m &&& 0o777 < 2 ^ 16 := by
    have := Nat.and_le_right (n := m) (m := 0o777)
    omega
  unfold gitMode
  split <;> split <;> split <;>
    first
      | exact hand
      | exact Nat.or_lt_two_pow hand (by decide)
      | exact Nat.or_lt_two_pow (Nat.or_lt_two_pow hand (by decide)) (by decide)
      | exact Nat.or_lt_two_pow
          (Nat.or_lt_two_pow (Nat.or_lt_two_pow hand (by decide)) (by decide)) (by decide)

end GigotLemmas

namespace GigotLemmas

open GigotBytes GigotObj

/-- One entry step of the object.go `parseTree` loop: a record
`<6 octal digits><SP><name><NUL><20-byte hash>` is consumed and the loop
continues on the rest — independently of any ordering between entries. -/
theorem parseTreeF_entry (f : Nat) (md nm hs rest : List Nat)
    (acc : List TreeElem) (mval : Nat)
    (hmd6 : md.length = 6) (hdig : ∀ c ∈ md, 48 ≤ c ∧ c ≤ 55)
    (hname : 0 ∉ nm) (hh : hs.length = 20)
    (hparse : parseUintOct md 16 = some mval) :
    ObjV1.parseTreeF (f + 1) (md ++ 32 :: (nm ++ 0 :: (hs ++ rest))) acc =
      ObjV1.parseTreeF f rest
        ({ name := nm, mode := osMode mval, hash := hs } :: acc) := by
  have h32 : 32 ∉ md := fun hm => by have := hdig _ hm; omega
  have h0pre : 0 ∉ md ++ 32 :: nm := by
    simp only [List.mem_append, List.mem_cons]
    rintro (h | h | h)
    · have := hdig _ h; omega
    · omega
    · exact hname h
  have hshape : md ++ 32 :: (nm ++ 0 :: (hs ++ rest)) =
      (md ++ 32 :: nm) ++ 0 :: (hs ++ rest) := by
    simp [List.append_assoc]
  have hsp : indexByte (md ++ 32 :: (nm ++ 0 :: (hs ++ rest))) 32 = (6 : Int) := by
    rw [indexByte_append md _ 32 h32, hmd6]
    norm_cast
  have hnul : indexByte (md ++ 32 :: (nm ++ 0 :: (hs ++ rest))) 0 =
      ((7 + nm.length : Nat) : Int) := by
    rw [hshape, indexByte_append _ _ 0 h0pre]
    simp [hmd6]
    omega
  have hlen : (md ++ 32 :: (nm ++ 0 :: (hs ++ rest))).length =
      28 + nm.length + rest.length := by
    simp only [List.length_append, List.length_cons, hmd6, hh]
    omega
  have hne : md ++ 32 :: (nm ++ 0 :: (hs ++ rest)) ≠ [] := by simp
  rw [ObjV1.parseTreeF, if_neg hne]
  rw [hsp, hnul, hlen]
  have hguard : ¬((6 : Int) ≠ 6 ∨ ((7 + nm.length : Nat) : Int) < 6 ∨
      ((7 + nm.length : Nat) : Int) + 20 ≥ ((28 + nm.length + rest.length : Nat) : Int)) := by
    simp only [ne_eq, not_or, not_lt, ge_iff_le, not_le]
    push_cast
    exact ⟨not_not_intro trivial, by omega, by omega⟩
  rw [if_neg hguard]
  have htake6 : (md ++ 32 :: (nm ++ 0 :: (hs ++ rest))).take 6 = md := by
    rw [← hmd6, List.take_left]
  rw [htake6, hparse]
  simp only []
  have htoNat : ((7 + nm.length : Nat) : Int).toNat = 7 + nm.length := by
    omega
  rw [htoNat]
  have hprefix : (md ++ 32 :: nm).length = 7 + nm.length := by
    simp [hmd6]
    omega
  have hnm : ((md ++ 32 :: (nm ++ 0 :: (hs ++ rest))).take (7 + nm.length)).drop 7 = nm := by
    rw [hshape, List.take_left' hprefix]
    have : md ++ 32 :: nm = (md ++ [32]) ++ nm := by simp
    rw [this, List.drop_left' (by simp [hmd6])]
  rw [hnm]
  have hshape2 : md ++ 32 :: (nm ++ 0 :: (hs ++ rest)) =
      ((md ++ 32 :: nm) ++ [0]) ++ (hs ++ rest) := by
    simp [List.append_assoc]
  have hhs : ((md ++ 32 :: (nm ++ 0 :: (hs ++ rest))).drop (7 + nm.length + 1)).take 20 = hs := by
    rw [hshape2, List.drop_left' (by simp [hmd6]; omega), List.take_left' hh]
  rw [hhs]
  have hshape3 : md ++ 32 :: (nm ++ 0 :: (hs ++ rest)) =
      (((md ++ 32 :: nm) ++ [0]) ++ hs) ++ rest := by
    simp [List.append_assoc]
  have hrest : (md ++ 32 :: (nm ++ 0 :: (hs ++ rest))).drop (7 + nm.length + 21) = rest := by
    rw [hshape3, List.drop_left' (by simp [hmd6, hh]; omega)]
  rw [hrest]

end GigotLemmas

namespace GigotLemmas

open GigotBytes GigotObj

/-- `indexByte` is at least -1. -/
theorem indexByte_ge (l : List Nat) (c : Nat) : -1 ≤ indexByte l c := by
  induction l with
  | nil => simp [indexByte]
  | cons a as ih =>
    simp only [indexByte]
    split
    · omega
    · split <;> omega

/-- The prefix before the first occurrence does not contain the byte. -/
theorem indexByte_take (l : List Nat) (c : Nat) :
    c ∉ l.take (indexByte l c).toNat := by
  induction l with
  | nil => simp
  | cons a as ih =>
    simp only [indexByte]
    by_cases ha : a = c
    · simp [ha]
    · rw [if_neg ha]
      by_cases hi : indexByte as c = -1
      · simp [hi]
      · rw [if_neg hi]
        have hge := indexByte_ge as c
        have : (indexByte as c + 1).toNat = (indexByte as c).toNat + 1 := by omega
        rw [this, List.take_succ_cons]
        intro hm
        rcases List.mem_cons.mp hm with h | h
        · exact ha h.symm
        · exact ih h

/-- The per-entry well-formedness `parseTree` guarantees and needs. -/
def EntryWF (e : TreeElem) : Prop :=
  0 ∉ e.name ∧ e.hash.length = 20 ∧ ∃ m, e.mode = osMode m

/-- The entry as re-parsed after one serialize/parse cycle. -/
def normElem (e : TreeElem) : TreeElem :=
  { name := e.name, mode := osMode (gitMode e.mode), hash := e.hash }

/-- `treeBody` of a cons, in the nested shape of `parseTreeF_entry`. -/
theorem treeBody_cons (e : TreeElem) (es : List TreeElem) :
    ObjV1.treeBody (e :: es) =
      octal6 (gitMode e.mode) ++ 32 :: (e.name ++ 0 :: (e.hash ++ ObjV1.treeBody es)) := by
  simp [ObjV1.treeBody, List.append_assoc]

/-- Exhausted input returns the accumulated entries whatever the fuel. -/
theorem parseTreeF_nil (f : Nat) (acc : List TreeElem) :
    ObjV1.parseTreeF f [] acc = .ok acc.reverse := by
  cases f <;> simp [ObjV1.parseTreeF]

/-- Parsing the serialization of well-formed entries succeeds and yields
the normalized entries — no ordering condition anywhere. -/
theorem parseTreeF_body :
    ∀ (es : List TreeElem) (f : Nat) (acc : List TreeElem),
      (∀ e ∈ es, 0 ∉ e.name ∧ e.hash.length = 20) →
      ObjV1.parseTreeF (f + es.length) (ObjV1.treeBody es) acc =
        .ok (acc.reverse ++ es.map normElem) := by
  intro es
  induction es with
  | nil =>
    intro f acc _
    simp only [ObjV1.treeBody, List.flatMap_nil, List.length_nil, Nat.add_zero,
      parseTreeF_nil, List.map_nil, List.append_nil]
  | cons e es ih =>
    intro f acc hwf
    have hwfe := hwf e (List.mem_cons_self e es)
    have hlt := gitMode_lt e.mode
    rw [treeBody_cons]
    have : f + (e :: es).length = (f + es.length) + 1 := by simp; omega
    rw [this]
    rw [parseTreeF_entry (f + es.length) _ _ _ _ acc (gitMode e.mode)
      (octal6_length _ hlt) (fun c hc => octal6_mem _ c hc) hwfe.1 hwfe.2
      (parseUintOct_octal6 _ hlt)]
    rw [ih f ({ name := e.name, mode := osMode (gitMode e.mode), hash := e.hash } :: acc)
      (fun x hx => hwf x (List.mem_cons_of_mem e hx))]
    simp [normElem, List.reverse_cons, List.append_assoc]

end GigotLemmas

namespace GigotLemmas

open GigotBytes GigotObj

/-- Each serialized entry occupies at least one byte. -/
theorem treeBody_length_ge (es : List TreeElem) :
    es.length ≤ (ObjV1.treeBody es).length := by
  induction es with
  | nil => simp [ObjV1.treeBody]
  | cons e es ih =>
    rw [treeBody_cons]
    simp only [List.length_append, List.length_cons]
    omega

/-- `parseTree` on the canonical body of well-formed entries. -/
theorem parseTree_treeBody (es : List TreeElem)
    (hwf : ∀ e ∈ es, 0 ∉ e.name ∧ e.hash.length = 20) :
    ObjV1.parseTree (ObjV1.treeBody es) = .ok (es.map normElem) := by
  unfold ObjV1.parseTree
  have hge := treeBody_length_ge es
  rw [show (ObjV1.treeBody es).length + 1 =
    ((ObjV1.treeBody es).length + 1 - es.length) + es.length by omega]
  rw [parseTreeF_body es _ [] hwf]
  simp

/-- Stability of the mode round-trip on modes produced by `osMode`:
for the four shapes `osMode` can produce, `gitMode ∘ osMode ∘ gitMode`
is the identity (checked for all permission bits). -/
theorem gitMode_osMode_stable_shapes :
    ∀ a < 512,
      gitMode (osMode (gitMode a)) = gitMode a ∧
      gitMode (osMode (gitMode (a ||| fmDir))) = gitMode (a ||| fmDir) ∧
      gitMode (osMode (gitMode (a ||| fmSymlink))) = gitMode (a ||| fmSymlink) ∧
      gitMode (osMode (gitMode ((a ||| fmDir) ||| fmSymlink))) =
        gitMode ((a ||| fmDir) ||| fmSymlink) := by
  decide

/-- The full stability fact: one serialize/parse cycle fixes the mode. -/
theorem gitMode_osMode_stable (m : Nat) :
    gitMode (osMode (gitMode (osMode m))) = gitMode (osMode m) := by
  have ha : m &&& 0o777 < 512 := by
    have := Nat.and_le_right (n := m) (m := 0o777)
    omega
  have hs := gitMode_osMode_stable_shapes (m &&& 0o777) ha
  show gitMode (osMode (gitMode (osMode m))) = gitMode (osMode m)
  unfold osMode
  split
  · exact hs.1
  · split
    · split
      · exact hs.2.2.2
      · exact hs.2.1
    · split
      · exact hs.2.2.1
      · exact hs.1

end GigotLemmas

namespace GigotLemmas

open GigotBytes GigotObj

/-- Every entry produced by a successful `parseTree` is well-formed: its
name has no NUL (it stops at the first NUL), its hash is exactly 20 bytes
(guaranteed by the `nul+20 >= len(s)` guard), and its mode is in the
image of `osMode`. -/
theorem parseTreeF_wf :
    ∀ (fuel : Nat) (s : List Nat) (acc es : List TreeElem),
      ObjV1.parseTreeF fuel s acc = .ok es →
      (∀ e ∈ acc, EntryWF e) →
      ∀ e ∈ es, EntryWF e := by
  intro fuel
  induction fuel with
  | zero =>
    intro s acc es hok hacc e he
    rw [ObjV1.parseTreeF] at hok
    by_cases hs : s = []
    · rw [if_pos hs] at hok
      injection hok with h
      subst h
      exact hacc e (List.mem_reverse.mp he)
    · rw [if_neg hs] at hok
      exact absurd hok (by simp)
  | succ f ih =>
    intro s acc es hok hacc e he
    rw [ObjV1.parseTreeF] at hok
    by_cases hs : s = []
    · rw [if_pos hs] at hok
      injection hok with h
      subst h
      exact hacc e (List.mem_reverse.mp he)
    · rw [if_neg hs] at hok
      by_cases hg : indexByte s 32 ≠ 6 ∨ indexByte s 0 < indexByte s 32 ∨
          indexByte s 0 + 20 ≥ (s.length : Int)
      · rw [if_pos hg] at hok
        exact absurd hok (by simp)
      · rw [if_neg hg] at hok
        push_neg at hg
        obtain ⟨hsp, hnsp, hlen⟩ := hg
        rcases hmode : parseUintOct (s.take 6) 16 with _ | mval
        · rw [hmode] at hok
          exact absurd hok (by simp)
        · rw [hmode] at hok
          refine ih _ _ _ hok ?_ e he
          intro x hx
          rcases List.mem_cons.mp hx with hx | hx
          · subst hx
            refine ⟨?_, ?_, ⟨mval, rfl⟩⟩
            · show 0 ∉ (s.take (indexByte s 0).toNat).drop 7
              intro hmem
              exact indexByte_take s 0 (List.mem_of_mem_drop hmem)
            · show ((s.drop ((indexByte s 0).toNat + 1)).take 20).length = 20
              have hnul0 : (0 : Int) ≤ indexByte s 0 := by
                have := hsp ▸ hnsp
                omega
              have : (indexByte s 0).toNat + 21 ≤ s.length := by omega
              simp only [List.length_take, List.length_drop]
              omega
          · exact hacc x hx

end GigotLemmas

namespace GigotLemmas

open GigotBytes GigotObj

/-- Re-serializing normalized entries gives the same record bytes
(the mode survives one cycle, names and hashes are copied verbatim). -/
theorem treeBody_norm (es : List TreeElem)
    (h : ∀ e ∈ es, ∃ m, e.mode = osMode m) :
    ObjV1.treeBody (es.map normElem) = ObjV1.treeBody es := by
  induction es with
  | nil => simp [ObjV1.treeBody]
  | cons e es ih =>
    simp only [List.map_cons, treeBody_cons]
    obtain ⟨m, hm⟩ := h e (List.mem_cons_self e es)
    rw [ih (fun x hx => h x (List.mem_cons_of_mem e hx))]
    have hstable : octal6 (gitMode (osMode (gitMode e.mode))) = octal6 (gitMode e.mode) := by
      rw [hm, gitMode_osMode_stable m]
    simp [normElem, hstable]

/-- The length field only depends on the names, which `normElem` keeps. -/
theorem treeLen_norm (es : List TreeElem) :
    ObjV1.treeLen (es.map normElem) = ObjV1.treeLen es := by
  have step : ∀ (l : List TreeElem) (a : Nat),
      (l.map normElem).foldl (fun acc e => acc + (6 + 1 + 1 + 20) + e.name.length) a =
        l.foldl (fun acc e => acc + (6 + 1 + 1 + 20) + e.name.length) a := by
    intro l
    induction l with
    | nil => intro a; simp
    | cons e es ih => intro a; simp only [List.map_cons, List.foldl_cons, normElem]; exact ih _
  exact step es 0

/-- Full serializer stability across one parse/serialize cycle. -/
theorem treeSer_norm (es : List TreeElem)
    (h : ∀ e ∈ es, ∃ m, e.mode = osMode m) :
    ObjV1.treeSer (es.map normElem) = ObjV1.treeSer es := by
  simp only [ObjV1.treeSer, treeBody_norm es h, treeLen_norm es]

end GigotLemmas

namespace GigotIn

open GigotBytes GigotLit

/-- A regular-file tree entry record: `"100644 " ++ name ++ NUL ++ hash`. -/
def entry644 (name hash : List Nat) : List Nat :=
  asciiBytes "100644 " ++ name ++ [0] ++ hash

/-- A loose-commit payload whose author timezone is `-0330` (a negative
offset with a non-zero minute part). -/
def c8commitPayload : List Nat := asciiBytes
  "tree 504094bacb51b85f453161900acc5989f2f38688\nauthor A <a@b> 0 -0330\ncommitter A <a@b> 0 +0000\n\nm\n"

/-- The hash-loop check of the canonical-serialization contract: parse a
payload with `readObject`, serialize the object with `Object.WriteTo`
(`objSer`), parse the loose bytes back (`readLooseDecomp` + `readObject`),
and compare the two objects' `ID`s. `none` means some step failed. -/
def idStable (t : GigotObj.ObjType) (payload : List Nat) : Option Bool :=
  match ObjV2.readObject t payload with
  | .ok o =>
    match ObjV2.readLooseDecomp (ObjV2.objSer o) with
    | .ok (t2, payload2) =>
      match ObjV2.readObject t2 payload2 with
      | .ok o2 => some (o2.id = o.id)
      | _ => none
    | .error _ => none
  | _ => none

/-- The two-entry tree of concrete scenario 4 of the spec. -/
def c8scn4 : List GigotObj.TreeElem :=
  [{name := [97], mode := GigotObj.osMode 0o100644,
    hash := hexLit "e965047ad7c57865823c7d992b1d046ea66edf78"},
   {name := [98], mode := GigotObj.osMode 0o100644,
    hash := hexLit "216e97ce08229b8776d3feb731c6d23a2f669ac8"}]

end GigotIn

/-- C8: the hash loop does not close for commits. Parsing the payload
with author timezone `-0330` and re-parsing its own serialization changes
the object ID (`idStable` returns `some false`: every step succeeded and
the IDs differ), because `parseAuthor` computes the zone offset as
`zhour*3600 + zmin*60`, which evaluates `-0330` to `-9000` seconds
(`-0230`) instead of `-12600`; each serialize/parse cycle shifts the zone.
The scenario-4 part of the claim does hold: the two-entry tree serializes
through `Tree.WriteTo` to the stated 66 bytes whose SHA-1 is
`8860cd0334e8b582ec8fe85a99dcc58ad6ee9387`. -/
theorem c8_id_roundtrip_commit_fails_scenario4_holds :
    GigotIn.idStable .commit GigotIn.c8commitPayload = some false ∧
    ObjV1.treeSer GigotIn.c8scn4 =
      GigotLit.asciiBytes "tree 58\x00100644 a\x00" ++
        GigotLit.hexLit "e965047ad7c57865823c7d992b1d046ea66edf78" ++
      GigotLit.asciiBytes "100644 b\x00" ++
        GigotLit.hexLit "216e97ce08229b8776d3feb731c6d23a2f669ac8" ∧
    (ObjV1.treeSer GigotIn.c8scn4).length = 66 ∧
    GigotSha1.sha1 (ObjV1.treeSer GigotIn.c8scn4) =
      GigotLit.hexLit "8860cd0334e8b582ec8fe85a99dcc58ad6ee9387" := by
  decide

/-- C7 (amended): `parseTree` applies no ordering check — any two
well-formed regular-file entries parse in the order given, whatever the
relative order of their names under the §4.4 comparator. -/
theorem c7_parseTree_ignores_order (n1 n2 h1 h2 : List Nat)
    (hn1 : 0 ∉ n1) (hn2 : 0 ∉ n2) (hh1 : h1.length = 20) (hh2 : h2.length = 20) :
    ObjV1.parseTree (GigotIn.entry644 n1 h1 ++ GigotIn.entry644 n2 h2) =
      .ok [{ name := n1, mode := GigotObj.osMode 0o100644, hash := h1 },
           { name := n2, mode := GigotObj.osMode 0o100644, hash := h2 }] := by
  have hpayload : GigotIn.entry644 n1 h1 ++ GigotIn.entry644 n2 h2 =
      ObjV1.treeBody
        [{ name := n1, mode := GigotObj.osMode 0o100644, hash := h1 },
         { name := n2, mode := GigotObj.osMode 0o100644, hash := h2 }] := by
    simp only [GigotLemmas.treeBody_cons]
    rw [show GigotObj.gitMode (GigotObj.osMode 0o100644) = 0o100644 from rfl]
    rw [show GigotBytes.octal6 0o100644 = [49, 48, 48, 54, 52, 52] from rfl]
    simp [GigotIn.entry644, GigotLit.asciiBytes, ObjV1.treeBody, List.append_assoc]
  rw [hpayload]
  rw [GigotLemmas.parseTree_treeBody _ (by
    intro e he
    rcases List.mem_cons.mp he with h | h
    · subst h; exact ⟨hn1, hh1⟩
    · rcases List.mem_cons.mp h with h | h
      · subst h; exact ⟨hn2, hh2⟩
      · simp at h)]
  have hmode : GigotObj.osMode (GigotObj.gitMode (GigotObj.osMode 0o100644)) =
      GigotObj.osMode 0o100644 := by decide
  simp [GigotLemmas.normElem, hmode]

/-- Witness for the amended C7, at the out-of-order instance `b`, `a`. -/
theorem c7_parseTree_ignores_order_witness :
    (0 : Nat) ∉ [98] ∧ (0 : Nat) ∉ [97] ∧
    (List.replicate 20 17).length = 20 ∧ (List.replicate 20 34).length = 20 ∧
    ObjV1.parseTree (GigotIn.entry644 [98] (List.replicate 20 17) ++
        GigotIn.entry644 [97] (List.replicate 20 34)) =
      .ok [{ name := [98], mode := GigotObj.osMode 0o100644,
             hash := List.replicate 20 17 },
           { name := [97], mode := GigotObj.osMode 0o100644,
             hash := List.replicate 20 34 }] :=
  ⟨by decide, by decide, by decide, by decide,
    c7_parseTree_ignores_order [98] [97] (List.replicate 20 17) (List.replicate 20 34)
      (by decide) (by decide) (by decide) (by decide)⟩

namespace GigotLemmas

open GigotBytes GigotObj

/-- The blob envelope written by `Blob.WriteTo` parses back to the same
payload (for lengths representable in Go, i.e. below `2^63`). -/
theorem readLoose_blobSer (data : List Nat) (h : data.length < 2 ^ 63) :
    ObjV2.readLooseDecomp (ObjV2.blobSer data) = .ok (.blob, data) := by
  set n := data.length with hn
  have hd19 : (decimal n).length ≤ 19 := by
    refine decimal_length n 19 ?_ (by omega)
    calc n < 2 ^ 63 := h
    _ < 10 ^ 19 := by norm_num
  have hdne : decimal n ≠ [] := decimal_ne_nil n
  have hdd : ∀ c ∈ decimal n, 48 ≤ c ∧ c ≤ 57 := fun c hc => decimal_mem n c hc
  have hs : ObjV2.blobSer data =
      ([98, 108, 111, 98] ++ 32 :: (decimal n ++ 0 :: data)) := by
    simp [ObjV2.blobSer, List.append_assoc]
  have hAlen : ([98, 108, 111, 98] ++ 32 :: (decimal n ++ [0])).length = 6 + (decimal n).length := by
    simp
    omega
  have hsplit : [98, 108, 111, 98] ++ 32 :: (decimal n ++ 0 :: data) =
      ([98, 108, 111, 98] ++ 32 :: (decimal n ++ [0])) ++ data := by
    simp [List.append_assoc]
  have htake32 : ([98, 108, 111, 98] ++ 32 :: (decimal n ++ 0 :: data)).take 32 =
      ([98, 108, 111, 98] ++ 32 :: (decimal n ++ [0])) ++ data.take (32 - (6 + (decimal n).length)) := by
    rw [hsplit, List.take_append_eq_append_take, hAlen,
      List.take_of_length_le (by omega : ([98, 108, 111, 98] ++ 32 :: (decimal n ++ [0])).length ≤ 32)]
  set hdr := ([98, 108, 111, 98] ++ 32 :: (decimal n ++ [0])) ++ data.take (32 - (6 + (decimal n).length)) with hhdr
  have hdrshape : hdr = [98, 108, 111, 98] ++
      32 :: (decimal n ++ 0 :: data.take (32 - (6 + (decimal n).length))) := by
    simp [hhdr, List.append_assoc]
  have hsp : indexByte hdr 32 = (4 : Int) := by
    rw [hdrshape]
    have := indexByte_append [98, 108, 111, 98]
      (decimal n ++ 0 :: data.take (32 - (6 + (decimal n).length))) 32 (by decide)
    rw [this]
    norm_cast
  have hnul : indexByte hdr 0 = ((5 + (decimal n).length : Nat) : Int) := by
    have hshape : hdr = ([98, 108, 111, 98, 32] ++ decimal n) ++
        0 :: data.take (32 - (6 + (decimal n).length)) := by
      simp [hdrshape, List.append_assoc]
    rw [hshape, indexByte_append _ _ 0 (by
      intro hm
      rcases List.mem_append.mp hm with h | h
      · simp at h
      · have := hdd _ h
        omega)]
    simp
    omega
  have hslen : ([98, 108, 111, 98] ++ 32 :: (decimal n ++ 0 :: data)).length =
      6 + (decimal n).length + n := by
    simp
    omega
  have hdr4 : hdr.take 4 = [98, 108, 111, 98] := by
    rw [hdrshape]
    rfl
  have hdrop5 : (hdr.take (5 + (decimal n).length)).drop 5 = decimal n := by
    have hshape : hdr = ([98, 108, 111, 98, 32] ++ decimal n) ++
        0 :: data.take (32 - (6 + (decimal n).length)) := by
      simp [hdrshape, List.append_assoc]
    rw [hshape, List.take_left' (by simp; omega)]
    have : [98, 108, 111, 98, 32] ++ decimal n = ([98, 108, 111, 98, 32] : List Nat) ++ decimal n := rfl
    rw [List.drop_left' (by simp : ([98, 108, 111, 98, 32] : List Nat).length = 5)]
  have hpayload : ([98, 108, 111, 98] ++ 32 :: (decimal n ++ 0 :: data)).drop
      (5 + (decimal n).length + 1) = data := by
    rw [hsplit, List.drop_left' (by rw [hAlen]; omega)]
  rw [ObjV2.readLooseDecomp]
  rw [hs]
  rw [htake32]
  rw [if_neg (by rw [hslen]; omega)]
  rw [hsp, hnul]
  simp only [show Int.toNat 4 = 4 from rfl, Int.toNat_natCast]
  rw [hdr4]
  simp only [List.cons_append, List.getD_cons_zero, ObjV2.matchType]
  norm_num
  rw [hdrop5, parseUintDec_decimal n (by
    calc n < 2 ^ 63 := h
    _ < 2 ^ 64 := by norm_num)]
  rw [if_neg (by omega)]
  have hp2 : (108 :: 111 :: 98 :: 32 :: (GigotBytes.decimal n ++ 0 :: data) : List Nat)
      = ([108, 111, 98, 32] ++ GigotBytes.decimal n ++ [0]) ++ data := by
    simp
  have hplen : ([108, 111, 98, 32] ++ GigotBytes.decimal n ++ [0] : List Nat).length
      = 5 + (GigotBytes.decimal n).length := by
    simp; omega
  rw [hp2]
  show (if (GigotBytes.decimal n).length + (data.length + 1) + 1 + 1 + 1 + 1
        - (5 + (GigotBytes.decimal n).length) = n then
      Except.ok (GigotObj.ObjType.blob, List.drop (5 + (GigotBytes.decimal n).length)
        ([108, 111, 98, 32] ++ GigotBytes.decimal n ++ [0] ++ data))
    else Except.error ObjV2.LErr.sizeMismatch)
    = Except.ok (GigotObj.ObjType.blob, data)
  rw [if_pos (by omega)]
  rw [show ([108, 111, 98, 32] ++ GigotBytes.decimal n ++ [0] ++ data : List Nat)
      = ([108, 111, 98, 32] ++ GigotBytes.decimal n ++ [0]) ++ data from by simp]
  rw [← hplen, List.drop_left]

end GigotLemmas

namespace GigotDelta

/-!
Stream grammar for C10: the delta body as the sequence of instructions
the encoder emits.
-/

/-- The shape of the delta body emitted by `Diff`: a sequence of insert
instructions — a leading opcode byte equal to the literal count, between
1 and `0x7f`, followed by exactly that many literal bytes — and of copy
segments exactly as `appendRefData` writes them (every copy opcode has
the `0x80` bit set). The reserved opcode `0x00` is not a valid insert
head. -/
inductive BodyWF : List Nat → Prop
  | nil : BodyWF []
  | insert (n : Nat) (lit rest : List Nat) : 1 ≤ n → n ≤ 0x7f → lit.length = n →
      BodyWF rest → BodyWF (n :: (lit ++ rest))
  | copy (off len : Nat) (rest : List Nat) : BodyWF rest →
      BodyWF (appendRefData [] off len ++ rest)

/-- `appendInlineData`'s loop only appends to its accumulator. -/
theorem appendInlineDataF_factor :
    ∀ (f : Nat) (p q data : List Nat),
      appendInlineDataF f (p ++ q) data = p ++ appendInlineDataF f q data := by
  intro f
  induction f with
  | zero => intro p q data; rfl
  | succ f ih =>
    intro p q data
    simp only [appendInlineDataF]
    split
    · rw [List.append_assoc]
      exact ih p _ _
    · split
      · rw [List.append_assoc]
      · rfl

/-- `appendInlineData` only appends to its accumulator. -/
theorem appendInlineData_factor2 (p q data : List Nat) :
    appendInlineData (p ++ q) data = p ++ appendInlineData q data :=
  appendInlineDataF_factor (data.length + 1) p q data

/-- `appendInlineData` relative to the empty accumulator. -/
theorem appendInlineData_factor (p data : List Nat) :
    appendInlineData p data = p ++ appendInlineData [] data := by
  have h := appendInlineData_factor2 p [] data
  rwa [List.append_nil] at h

/-- The final opcode writer of `appendRefData` only appends. -/
theorem refDataOp_factor (p q : List Nat) (off len : Nat) :
    refDataOp (p ++ q) off len = p ++ refDataOp q off len := by
  simp only [refDataOp, List.append_assoc]

/-- `appendRefData`'s loop only appends to its accumulator. -/
theorem appendRefDataF_factor :
    ∀ (f : Nat) (p q : List Nat) (off len : Nat),
      appendRefDataF f (p ++ q) off len = p ++ appendRefDataF f q off len := by
  intro f
  induction f with
  | zero => intro p q off len; rfl
  | succ f ih =>
    intro p q off len
    simp only [appendRefDataF]
    split
    · rw [List.append_assoc]
      exact ih p _ _ _
    · exact refDataOp_factor p q off len

/-- `appendRefData` only appends to its accumulator. -/
theorem appendRefData_factor2 (p q : List Nat) (off len : Nat) :
    appendRefData (p ++ q) off len = p ++ appendRefData q off len :=
  appendRefDataF_factor ((len >>> 16) + 1) p q off len

/-- `appendRefData` relative to the empty accumulator. -/
theorem appendRefData_factor (p : List Nat) (off len : Nat) :
    appendRefData p off len = p ++ appendRefData [] off len := by
  have h := appendRefData_factor2 p [] off len
  rwa [List.append_nil] at h

end GigotDelta

namespace GigotDelta

/-- Every run the inline-data writer emits is a chain of well-formed
insert instructions: opcodes in `[1, 0x7f]`, each followed by exactly
that many literal bytes; an empty run emits nothing (never opcode 0). -/
theorem appendInlineDataF_wf :
    ∀ (f : Nat) (data rest : List Nat), data.length < f → BodyWF rest →
      BodyWF (appendInlineDataF f [] data ++ rest) := by
  intro f
  induction f with
  | zero => intro data rest h hr; exact absurd h (by omega)
  | succ f ih =>
    intro data rest h hr
    simp only [appendInlineDataF, List.nil_append]
    split
    · rename_i hgt
      rw [show (0x7f : Nat) :: data.take 0x7f = ((0x7f : Nat) :: data.take 0x7f) ++ []
            from (List.append_nil _).symm,
          appendInlineDataF_factor]
      simp only [List.cons_append, List.nil_append, List.append_assoc]
      refine BodyWF.insert 0x7f (data.take 0x7f) _ (by omega) (by omega) ?_ ?_
      · simp only [List.length_take]
        omega
      · refine ih _ _ ?_ hr
        simp only [List.length_drop]
        omega
    · split
      · rename_i hle hpos
        simp only [List.cons_append]
        exact BodyWF.insert data.length data rest (by omega) (by omega) rfl hr
      · exact hr

/-- `appendInlineData` from an empty accumulator, composed with a
well-formed continuation, is well-formed. -/
theorem appendInlineData_wf (data rest : List Nat) (h : BodyWF rest) :
    BodyWF (appendInlineData [] data ++ rest) :=
  appendInlineDataF_wf (data.length + 1) data rest (by omega) h

end GigotDelta

namespace GigotDelta

open GigotBytes

/-- The scan of `Diff` only appends to the patch accumulator. -/
theorem diffLoop_factor (d1 d2 : ByteSrc) (hashes : HashMapU) :
    ∀ (f i p : Nat) (lm : Int) (patch q : List Nat),
      diffLoop d1 d2 hashes f i p lm (patch ++ q) =
        patch ++ diffLoop d1 d2 hashes f i p lm q := by
  intro f
  induction f with
  | zero =>
    intro i p lm patch q
    simp only [diffLoop]
    exact appendInlineData_factor2 patch q _
  | succ f ih =>
    intro i p lm patch q
    simp only [diffLoop]
    split
    · exact appendInlineData_factor2 patch q _
    · split
      · exact ih _ _ _ patch q
      · split
        · split <;> split <;>
            first
              | rw [appendInlineData_factor2 patch q, appendRefData_factor2 patch,
                  appendInlineData_factor2 patch]
              | (rw [appendInlineData_factor2 patch q, appendRefData_factor2 patch]
                 exact ih _ _ _ patch _)
        · exact ih _ _ _ patch q

/-- `diffLoop` relative to the empty accumulator. -/
theorem diffLoop_factor0 (d1 d2 : ByteSrc) (hashes : HashMapU)
    (f i p : Nat) (lm : Int) (patch : List Nat) :
    diffLoop d1 d2 hashes f i p lm patch =
      patch ++ diffLoop d1 d2 hashes f i p lm [] := by
  have h := diffLoop_factor d1 d2 hashes f i p lm patch []
  rwa [List.append_nil] at h

/-- Exit shape of the scan after a match: pending literals, the copy
segment, then the final literal run — a well-formed stream. -/
theorem bodyWF_exit (ins : List Nat) (off len : Nat) (tl : List Nat) :
    BodyWF (appendInlineData (appendRefData (appendInlineData [] ins) off len) tl) := by
  rw [appendRefData_factor (appendInlineData [] ins) off len,
    appendInlineData_factor2 (appendInlineData [] ins) (appendRefData [] off len) tl,
    appendInlineData_factor (appendRefData [] off len) tl]
  exact appendInlineData_wf _ _ (BodyWF.copy _ _ _
    (by simpa using appendInlineData_wf _ [] BodyWF.nil))

/-- Recursion shape of the scan after a match: pending literals and the
copy segment prefix a well-formed continuation. -/
theorem bodyWF_rec (d1 d2 : ByteSrc) (hashes : HashMapU) (f i2 p2 : Nat) (lm2 : Int)
    (ins : List Nat) (off len : Nat)
    (h : BodyWF (diffLoop d1 d2 hashes f i2 p2 lm2 [])) :
    BodyWF (diffLoop d1 d2 hashes f i2 p2 lm2
      (appendRefData (appendInlineData [] ins) off len)) := by
  rw [appendRefData_factor (appendInlineData [] ins) off len,
    diffLoop_factor0 d1 d2 hashes f i2 p2 lm2
      (appendInlineData [] ins ++ appendRefData [] off len),
    List.append_assoc]
  exact appendInlineData_wf _ _ (BodyWF.copy _ _ _ h)

/-- Everything the scan of `Diff` appends after the header is a
well-formed instruction stream. -/
theorem diffLoop_bodyWF (d1 d2 : ByteSrc) (hashes : HashMapU) :
    ∀ (f i p : Nat) (lm : Int), BodyWF (diffLoop d1 d2 hashes f i p lm []) := by
  intro f
  induction f with
  | zero =>
    intro i p lm
    simp only [diffLoop]
    rw [appendInlineData_factor]
    simpa using appendInlineData_wf _ [] BodyWF.nil
  | succ f ih =>
    intro i p lm
    simp only [diffLoop]
    split
    · rw [appendInlineData_factor]
      simpa using appendInlineData_wf _ [] BodyWF.nil
    · split
      · exact ih _ _ _
      · split
        · split <;> split <;>
            first
              | exact bodyWF_exit _ _ _ _
              | exact bodyWF_rec _ _ _ _ _ _ _ _ _ _ (ih _ _ _)
        · exact ih _ _ _

end GigotDelta

/-- C10: every insert instruction `Diff` emits has a leading opcode byte
equal to its literal count, in `[1, 0x7f]`, followed by exactly that many
literal bytes; the reserved opcode `0x00` is never emitted as an insert
head (an empty pending run emits nothing, and a run that is an exact
multiple of `0x7f` bytes emits only full `0x7f`-blocks). Stated as: the
delta is the varint header followed by a body, and the body satisfies the
`BodyWF` instruction grammar, whose only literal-emitting rule carries
these bounds. -/
theorem c10_diff_insert_opcodes_wellformed (data1 data2 : GigotBytes.ByteSrc) :
    GigotDelta.Diff data1 data2 =
      GigotDelta.putUvarint data1.size ++ GigotDelta.putUvarint data2.size ++
        GigotDelta.diffLoop data1 data2 (GigotDelta.hashChunks data1)
          (data2.size + 2) 0 0 (-1) [] ∧
    GigotDelta.BodyWF (GigotDelta.diffLoop data1 data2 (GigotDelta.hashChunks data1)
      (data2.size + 2) 0 0 (-1) []) := by
  constructor
  · show GigotDelta.diffLoop data1 data2 (GigotDelta.hashChunks data1)
      (data2.size + 2) 0 0 (-1)
      (GigotDelta.putUvarint data1.size ++ GigotDelta.putUvarint data2.size) = _
    rw [GigotDelta.diffLoop_factor0, List.append_assoc]
  · exact GigotDelta.diffLoop_bodyWF data1 data2 (GigotDelta.hashChunks data1)
      (data2.size + 2) 0 0 (-1)

namespace GigotIn

open GigotBytes

/-- Base for the round-trip counterexample: 64 KiB of zeros followed by
the 16 bytes `1..16` (so the only interesting chunk sits at offset
`0x10000`, whose 32-bit copy offset has a byte in position 2). -/
def diffData1 : ByteSrc :=
  { size := 65552, get := fun i => if i < 65536 then 0 else i - 65535 }

/-- Target for the round-trip counterexample: the 16 bytes `1..16`
twice. -/
def diffData2 : ByteSrc :=
  { size := 32, get := fun i => i % 16 + 1 }

end GigotIn

namespace GigotLemmas

open GigotBytes GigotDelta GigotIn

/-- Every 16-byte window of `diffData1` that stays below `0x10000` is all
zeros. -/
theorem diffData1_slice_zeros (i : Nat) (h : i + 16 ≤ 65536) :
    diffData1.slice i 16 = List.replicate 16 0 := by
  simp only [ByteSrc.slice, diffData1]
  rw [List.eq_replicate_iff]
  refine ⟨by simp, ?_⟩
  intro b hb
  simp only [List.mem_map, List.mem_range] at hb
  obtain ⟨j, hj, hb⟩ := hb
  rw [if_pos (by omega)] at hb
  omega

/-- One step of the `hashChunks` loop. -/
theorem hashChunksF_succ (input : ByteSrc) (k i : Nat) (acc : HashMapU) :
    hashChunksF input (k + 1) i acc =
      if i > 0 then
        hashChunksF input k (i - 16) (mapIns acc (hashRabin (input.slice i 16)) i)
      else acc := rfl

/-- The fingerprint of the all-zero window. -/
theorem hashRabin_zeros : hashRabin (List.replicate 16 0) = 0 := by decide

/-- Running the `hashChunks` loop over the all-zero region of `diffData1`
never writes the fingerprint `583015630` of the window `1..16`, so that
key keeps its incoming value. -/
theorem hashChunksF_skip :
    ∀ (k i : Nat) (acc : HashMapU), i ≤ 65520 →
      hashChunksF diffData1 k i acc 583015630 = acc 583015630 := by
  intro k
  induction k with
  | zero => intro i acc h; rfl
  | succ k ih =>
    intro i acc h
    rw [hashChunksF_succ]
    split
    · rw [ih (i - 16) _ (by omega)]
      rw [diffData1_slice_zeros i (by omega), hashRabin_zeros]
      simp [mapIns]
    · rfl

/-- The chunk map of `diffData1` sends the fingerprint of `1..16` to the
chunk offset `0x10000`. -/
theorem hashChunks_at_tail : hashChunks diffData1 583015630 = some 65536 := by
  show hashChunksF diffData1 (4097 + 1) 65536 (fun _ => none) 583015630 = some 65536
  rw [hashChunksF_succ, if_pos (by omega), hashChunksF_skip 4097 (65536 - 16) _ (by omega)]
  simp only [mapIns]
  rw [if_pos (by decide)]

/-- The scan of `Diff` on the counterexample pair, for any chunk map that
sends the fingerprint of `1..16` to `0x10000`: one copy instruction with
the buggy opcode `0x92` (offset byte 2 flagged as bit 1) and one insert
of the remaining 16 literals. -/
theorem diffLoop_scan (m : HashMapU) (hm : m 583015630 = some 65536) :
    diffLoop diffData1 diffData2 m 34 0 0 (-1) [144, 128, 4, 32] =
      [144, 128, 4, 32, 146, 1, 16,
        16, 1, 2, 3, 4, 5, 6, 7, 8, 9, 10, 11, 12, 13, 14, 15, 16] := by
  have h16 : diffLoop diffData1 diffData2 m 34 0 0 (-1) [144, 128, 4, 32] =
      diffLoop diffData1 diffData2 m (17 + 1) 16 583015630 (-1) [144, 128, 4, 32] := rfl
  rw [h16, diffLoop, hm]
  rfl

end GigotLemmas

/-- C1: the patch/diff round-trip fails. On the pair `diffData1` (64 KiB
of zeros then `1..16`) and `diffData2` (`1..16` twice), `Diff` finds the
match at base offset `0x10000` and `appendRefData` emits the copy
`[0x92, 0x01, 0x10]`: the nonzero offset byte 2 sets bit 1 instead of
bit 2 (`op |= 2` where `op |= 4` was meant), so the §4.2 interpreter
decodes the offset as `0x100` instead of `0x10000` and copies 16 zeros.
`Patch` succeeds but returns the wrong bytes, refuting
`patch(A, diff(A, B)) = B`. -/
theorem c1_patch_diff_roundtrip_fails :
    GigotDelta.Patch GigotIn.diffData1 (GigotDelta.Diff GigotIn.diffData1 GigotIn.diffData2) =
      .ok (List.replicate 16 0 ++
        [1, 2, 3, 4, 5, 6, 7, 8, 9, 10, 11, 12, 13, 14, 15, 16]) ∧
    List.replicate 16 0 ++ [1, 2, 3, 4, 5, 6, 7, 8, 9, 10, 11, 12, 13, 14, 15, 16] ≠
      GigotIn.diffData2.slice 0 GigotIn.diffData2.size := by
  have hdiff : GigotDelta.Diff GigotIn.diffData1 GigotIn.diffData2 =
      [144, 128, 4, 32, 146, 1, 16,
        16, 1, 2, 3, 4, 5, 6, 7, 8, 9, 10, 11, 12, 13, 14, 15, 16] := by
    show GigotDelta.diffLoop GigotIn.diffData1 GigotIn.diffData2
        (GigotDelta.hashChunks GigotIn.diffData1) 34 0 0 (-1) [144, 128, 4, 32] = _
    exact GigotLemmas.diffLoop_scan (GigotDelta.hashChunks GigotIn.diffData1)
      GigotLemmas.hashChunks_at_tail
  refine ⟨?_, by decide⟩
  rw [hdiff]
  decide
